import Mathlib

/-!
A shallow embedding of the bcalm2 bidirected genome-graph reader and writer of
the `genome-graph-rs` repository (`src/io/bcalm2/mod.rs`, `src/generic/mod.rs`,
`src/io/bcalm2/error.rs`), together with theorems settling the specification
claims.  Machine integers (`usize`) are modelled as `Nat`; sequence-store
handles are indices into a list of sequences; fallible code returns `Except`.
-/

set_option maxRecDepth 10000

namespace GenomeGraph

/-- The four DNA characters of the `DnaAlphabet` of the external
`compact-genome` crate. -/
inductive DnaBase where
  | A
  | C
  | G
  | T
deriving DecidableEq, Repr

/-- Complement of a DNA character. -/
def DnaBase.complement : DnaBase → DnaBase
  | .A => .T
  | .C => .G
  | .G => .C
  | .T => .A

/-- Reverse complement of a DNA sequence (`reverse_complement_iter` of the
external sequence library yields exactly these characters in order). -/
def revcomp (s : List DnaBase) : List DnaBase :=
  (s.map DnaBase.complement).reverse

/-- Conversion of a raw character into the alphabet; `none` for characters
outside the alphabet. -/
def charToDnaBase : Char → Option DnaBase
  | 'A' => some .A
  | 'C' => some .C
  | 'G' => some .G
  | 'T' => some .T
  | _ => none

def dnaBaseToChar : DnaBase → Char
  | .A => 'A'
  | .C => 'C'
  | .G => 'G'
  | .T => 'T'

/-- The store type `DefaultSequenceStore<DnaAlphabet>`: the list of stored sequences; a handle
is the index of a stored sequence.  All handles appearing in this development
are valid (the source's `get` panics on an invalid handle). -/
abbrev SequenceStore := List (List DnaBase)

def SequenceStore.get (store : SequenceStore) (handle : Nat) : List DnaBase :=
  store.getD handle []

/-- The source's `SequenceStore::add_from_slice_u8`: convert the raw characters of a record
body; `none` when a character is outside the alphabet (the source returns an
error, which `parse_bcalm2_fasta_record` turns into a panic). -/
def add_from_slice_u8 (s : List Char) : Option (List DnaBase) :=
  s.mapM charToDnaBase

/-- Rust `str::parse::<usize>` on plain digit strings (the source also accepts
a leading `+` sign, which no input of this development uses; leading zeros are
accepted, as in the source). -/
def parseNat (s : String) : Option Nat :=
  if s.data.isEmpty then none
  else if s.data.all Char.isDigit then
    some (s.data.foldl (fun acc c => acc * 10 + (c.toNat - 48)) 0)
  else none

/-- Splitting a character list at every separator (the semantics of Rust's
`str::split` and of `String.split`, written as structural recursion). -/
def splitCharsAux (p : Char → Bool) : List Char → List Char → List (List Char)
  | [], acc => [acc.reverse]
  | c :: cs, acc =>
    if p c then acc.reverse :: splitCharsAux p cs []
    else splitCharsAux p cs (c :: acc)

def splitChars (p : Char → Bool) (l : List Char) : List (List Char) :=
  splitCharsAux p l []

/-- Rust `str::split_whitespace`: split at whitespace and drop empty pieces. -/
def splitWhitespace (s : String) : List String :=
  ((splitChars Char.isWhitespace s.data).filter (fun t => !t.isEmpty)).map String.mk

/-- The bcalm2 error kind (`src/io/bcalm2/error.rs`), restricted to the
variants reachable in this embedding. -/
inductive BCalm2IoError where
  | BCalm2IdError (id : String)
  | BCalm2LengthError (length sequence_length : Nat)
  | BCalm2UnknownParameterError (parameter : String)
  | BCalm2DuplicateParameterError (parameter : String)
  | BCalm2MalformedParameterError (parameter : String)
  | BCalm2EdgeWithoutMirror
deriving DecidableEq, Repr

/-- Failure channel of a fallible operation: either a Rust panic (which aborts
the program and is not an error value) or a returned `BCalm2IoError`. -/
inductive PFail where
  | panicked
  | ioError (e : BCalm2IoError)
deriving DecidableEq, Repr

/-- The type `PlainBCalm2Edge`: one adjacency token `L:from_side:to_node:to_side`;
`true` means `+`, `false` means `-`. -/
structure PlainBCalm2Edge where
  from_side : Bool
  to_node : Nat
  to_side : Bool
deriving DecidableEq, Repr

/-- The type `PlainBCalm2NodeData` with the sequence-store handle instantiated at `Nat`.
The `f64` mean abundance is modelled as an exact one-decimal fixed point
(integer part, tenth digit); see `parseMeanAbundance`. -/
structure PlainBCalm2NodeData where
  id : Nat
  sequence_handle : Nat
  forwards : Bool
  length : Option Nat
  total_abundance : Option Nat
  mean_abundance : Option (Nat × Nat)
  edges : List PlainBCalm2Edge
deriving DecidableEq, Repr

/-- The source's `BidirectedData::mirror` for `PlainBCalm2NodeData`: clone and flip
`forwards`. -/
def PlainBCalm2NodeData.mirror (d : PlainBCalm2NodeData) : PlainBCalm2NodeData :=
  { d with forwards := !d.forwards }

/-- The source's `PartialEq for PlainBCalm2NodeData`: equality compares only
`sequence_handle` and `forwards`. -/
def PlainBCalm2NodeData.rustEq (a b : PlainBCalm2NodeData) : Bool :=
  a.sequence_handle == b.sequence_handle && a.forwards == b.forwards

/-- The source's `SequenceData::sequence_ref` for `PlainBCalm2NodeData`: the stored sequence
when `forwards`, `none` otherwise. -/
def PlainBCalm2NodeData.sequence_ref (d : PlainBCalm2NodeData) (store : SequenceStore) :
    Option (List DnaBase) :=
  if d.forwards then some (store.get d.sequence_handle) else none

/-- The source's `SequenceData::sequence_owned` for `PlainBCalm2NodeData`. -/
def PlainBCalm2NodeData.sequence_owned (d : PlainBCalm2NodeData) (store : SequenceStore) :
    List DnaBase :=
  if d.forwards then store.get d.sequence_handle
  else revcomp (store.get d.sequence_handle)

/-- Modelled from the spec: one record of the text format (§6) — the numeric id
token of the header line, the rest of the header line (the description), and
the sequence body.  The external fasta tokenizer itself is out of scope. -/
structure FastaRecord where
  id : String
  desc : String
  seq : String
deriving DecidableEq, Repr

/-- The parameter accumulator of `parse_bcalm2_fasta_record`'s loop. -/
structure ParamState where
  length : Option Nat
  total_abundance : Option Nat
  mean_abundance : Option (Nat × Nat)
  edges : List PlainBCalm2Edge
deriving DecidableEq, Repr

/-- Modelled from the spec: mean abundance `KM:f:`/`km:f:` is an `f64` in the
source; floating point is out of scope, so the value is modelled as an exact
one-decimal fixed point whose parser accepts exactly strings of the form
`<digits>.<digit>` (every mean abundance appearing in this development has that
shape, for which Rust's parse-then-`{:.1}`-print is the identity). -/
def parseMeanAbundance (s : String) : Option (Nat × Nat) :=
  match (splitChars (fun c => c = '.') s.data).map String.mk with
  | [a, b] =>
    if b.data.length = 1 then do
      let i ← parseNat a
      let t ← parseNat b
      pure (i, t)
    else none
  | _ => none

/-- The `forward_reverse_to_bool` closure of the `L:` parameter parser. -/
def forward_reverse_to_bool (parameter c : String) : Except PFail Bool :=
  if c = "+" then .ok true
  else if c = "-" then .ok false
  else .error (.ioError (.BCalm2MalformedParameterError parameter))

/-- One iteration of the parameter loop of `parse_bcalm2_fasta_record`
(`src/io/bcalm2/mod.rs` lines 164-249). -/
def paramStep (st : ParamState) (parameter : String) : Except PFail ParamState :=
  if parameter.data.length < 5 then
    .error (.ioError (.BCalm2UnknownParameterError parameter))
  else if parameter.data.take 5 = "LN:i:".data then
    if st.length.isSome then .error (.ioError (.BCalm2DuplicateParameterError parameter))
    else match parseNat (String.mk (parameter.data.drop 5)) with
      | some n => .ok { st with length := some n }
      | none => .error (.ioError (.BCalm2MalformedParameterError parameter))
  else if parameter.data.take 5 = "KC:i:".data then
    if st.total_abundance.isSome then
      .error (.ioError (.BCalm2DuplicateParameterError parameter))
    else match parseNat (String.mk (parameter.data.drop 5)) with
      | some n => .ok { st with total_abundance := some n }
      | none => .error (.ioError (.BCalm2MalformedParameterError parameter))
  else if parameter.data.take 5 = "KM:f:".data ∨ parameter.data.take 5 = "km:f:".data then
    if st.mean_abundance.isSome then
      .error (.ioError (.BCalm2DuplicateParameterError parameter))
    else match parseMeanAbundance (String.mk (parameter.data.drop 5)) with
      | some v => .ok { st with mean_abundance := some v }
      | none => .error (.ioError (.BCalm2MalformedParameterError parameter))
  else if parameter.data.take 2 = "L:".data then
    match (splitChars (fun c => c = ':') parameter.data).map String.mk with
    | [_, p1, p2, p3] => do
      let from_side ← forward_reverse_to_bool parameter p1
      let to_node ← match parseNat p2 with
        | some n => Except.ok n
        | none =>
          Except.error (PFail.ioError (.BCalm2MalformedParameterError parameter))
      let to_side ← forward_reverse_to_bool parameter p3
      Except.ok { st with edges := st.edges ++ [⟨from_side, to_node, to_side⟩] }
    | _ => .error (.ioError (.BCalm2MalformedParameterError parameter))
  else .error (.ioError (.BCalm2UnknownParameterError parameter))

/-- The source's `parse_bcalm2_fasta_record` (`src/io/bcalm2/mod.rs` lines 141-270): parse
the id, store the sequence (panicking on an invalid character), fold the
description parameters, then check the declared length. -/
def parse_bcalm2_fasta_record (record : FastaRecord)
    (target_sequence_store : SequenceStore) :
    Except PFail (SequenceStore × PlainBCalm2NodeData) := do
  let id ← match parseNat record.id with
    | some i => Except.ok i
    | none => Except.error (PFail.ioError (.BCalm2IdError record.id))
  let seq ← match add_from_slice_u8 record.seq.data with
    | some s => Except.ok s
    | none => Except.error PFail.panicked
  let sequence_handle := target_sequence_store.length
  let store := target_sequence_store ++ [seq]
  let ps ← (splitWhitespace record.desc).foldlM paramStep ⟨none, none, none, []⟩
  match ps.length with
  | some l =>
    if l ≠ seq.length then
      Except.error (.ioError (.BCalm2LengthError l seq.length))
    else
      Except.ok (store,
        ⟨id, sequence_handle, true, ps.length, ps.total_abundance, ps.mean_abundance, ps.edges⟩)
  | none =>
    Except.ok (store,
      ⟨id, sequence_handle, true, none, ps.total_abundance, ps.mean_abundance, ps.edges⟩)

/-- The type `MappedNode` (`src/generic/mod.rs` lines 7-14): the resolved identity of a
virtual strand endpoint.  The graph node index type is `Nat`. -/
inductive MappedNode where
  | Unmapped
  | Normal (forward backward : Nat)
  | SelfMirror (n : Nat)
deriving DecidableEq, Repr

/-- The source's `MappedNode::mirror` (`src/generic/mod.rs` lines 16-27). -/
def MappedNode.mirror : MappedNode → MappedNode
  | .Unmapped => .Unmapped
  | .Normal f b => .Normal b f
  | .SelfMirror n => .SelfMirror n

/-- One directed edge of the container, with its payload. -/
structure EdgeRecord where
  from_node : Nat
  to_node : Nat
  data : PlainBCalm2NodeData
deriving DecidableEq, Repr

/-- Modelled from the spec: the external bidirected-graph container (contract
§6), instantiated with unit node data and `PlainBCalm2NodeData` edge data.
`node_mirrors` has one entry per node holding its registered mirror; edges are
kept in insertion order (multigraph-safe, never deduplicated). -/
structure BiGraph where
  node_mirrors : List (Option Nat)
  edges : List EdgeRecord
deriving DecidableEq, Repr

def BiGraph.node_count (g : BiGraph) : Nat := g.node_mirrors.length

/-- The container's `add_node(data) → handle`; the node data is `NodeData::default()` = `()`
throughout the edge-centric reader. -/
def BiGraph.add_node (g : BiGraph) : Nat × BiGraph :=
  (g.node_count, { g with node_mirrors := g.node_mirrors ++ [none] })

/-- The container's `set_mirror_nodes(a, b)`: register a mutual mirror (`a = b` allowed). -/
def BiGraph.set_mirror_nodes (g : BiGraph) (a b : Nat) : BiGraph :=
  { g with node_mirrors := (g.node_mirrors.set a (some b)).set b (some a) }

/-- The container's `mirror_node(handle)`. -/
def BiGraph.mirror_node (g : BiGraph) (n : Nat) : Option Nat :=
  g.node_mirrors.getD n none

/-- The container's `add_edge(from, to, payload)`: always appends a new parallel edge. -/
def BiGraph.add_edge (g : BiGraph) (u v : Nat) (d : PlainBCalm2NodeData) : BiGraph :=
  { g with edges := g.edges ++ [⟨u, v, d⟩] }

/-- The container's `Graph::default()`. -/
def BiGraph.empty : BiGraph := ⟨[], []⟩

/-- Modelled from the spec: stable edge iteration — the out-neighbors of `v`
are the edges leaving `v`, each with its edge index, in insertion order. -/
def BiGraph.out_neighbors (g : BiGraph) (v : Nat) : List (Nat × EdgeRecord) :=
  g.edges.enum.filter (fun p => p.2.from_node == v)

/-- Modelled from the spec: `mirror_edge_edge_centric` of the container — the
(by the mirror invariant unique) edge with mirrored-and-swapped endpoints and
mirrored payload; payload equality is the source's `PartialEq`
(`PlainBCalm2NodeData.rustEq`). -/
def BiGraph.mirror_edge_edge_centric (g : BiGraph) (e : Nat) : Option Nat := do
  let er ← g.edges.get? e
  let mv ← g.mirror_node er.to_node
  let mu ← g.mirror_node er.from_node
  g.edges.findIdx? (fun m =>
    m.from_node == mv && m.to_node == mu && m.data.rustEq er.data.mirror)

/-- The mutable state of the edge-centric builder: the endpoint-identity map
and the graph under construction. -/
structure BuildState where
  node_map : List MappedNode
  graph : BiGraph
deriving DecidableEq, Repr

/-- Reading `node_map[i]`; every read in the source happens after the map was
resized past `i`, so the default is never observed there. -/
def getSlot (nm : List MappedNode) (i : Nat) : MappedNode := nm.getD i .Unmapped

/-- The source's resize guard `if node_map.len() <= t { node_map.resize(t + 1, Unmapped) }`. -/
def ensureSize (nm : List MappedNode) (t : Nat) : List MappedNode :=
  if nm.length ≤ t then nm ++ List.replicate (t + 1 - nm.length) .Unmapped else nm

/-- The source's `edge_is_self_mirror` (`src/io/bcalm2/mod.rs` lines 657-661): the first
`kmer_size - 1` characters of the sequence equal, position by position, the
reverse complement of the sequence. -/
def edge_is_self_mirror (seq : List DnaBase) (kmer_size : Nat) : Bool :=
  ((seq.zip (revcomp seq)).take (kmer_size - 1)).all (fun p => p.1 == p.2)

/-- The head-resolution neighbor search (lines 686-708): scan the record's
incoming-direction edges (`!from_side`) in order, growing the map exactly where
the source does, and adopt the first already-mapped neighbor value (mirrored
when the edge changes sides); the scan stops at the first match. -/
def headSearch : List PlainBCalm2Edge → List MappedNode → List MappedNode × Option MappedNode
  | [], nm => (nm, none)
  | e :: rest, nm =>
    if e.from_side then headSearch rest nm
    else
      let t := e.to_node * 2 + (if e.to_side then 0 else 1)
      let nm := ensureSize nm t
      if getSlot nm t ≠ .Unmapped then
        (nm, some (if !e.to_side then getSlot nm t else (getSlot nm t).mirror))
      else headSearch rest nm

/-- The head-side propagation loop (lines 730-744): write the resolved value of
slot `n1` (mirrored when the edge changes sides) into every incoming-direction
neighbor slot, unconditionally.  An out-of-range write is a no-op here, where
the source would panic; all inputs of this development stay in range. -/
def headPropagate (n1 : Nat) : List PlainBCalm2Edge → List MappedNode → List MappedNode
  | [], nm => nm
  | e :: rest, nm =>
    if e.from_side then headPropagate n1 rest nm
    else
      let t := e.to_node * 2 + (if e.to_side then 0 else 1)
      let v := if !e.to_side then getSlot nm n1 else (getSlot nm n1).mirror
      headPropagate n1 rest (nm.set t v)

/-- Fresh binode allocation (lines 711-726 and 783-798): one self-mirror node,
or a freshly created and mirror-registered pair. -/
def freshBinode (g : BiGraph) (self_mirror : Bool) : BiGraph × MappedNode :=
  if self_mirror then
    let (a, g) := g.add_node
    (g.set_mirror_nodes a a, .SelfMirror a)
  else
    let (a, g) := g.add_node
    let (b, g) := g.add_node
    (g.set_mirror_nodes a b, .Normal a b)

/-- The head block of the per-record loop (lines 682-746). -/
def processHead (record : PlainBCalm2NodeData) (st : BuildState) : BuildState :=
  let n1 := record.id * 2
  let n1_is_self_mirror := record.edges.contains ⟨false, record.id, true⟩
  if getSlot st.node_map n1 ≠ .Unmapped then st
  else
    match headSearch record.edges st.node_map with
    | (nm, some v) =>
      { node_map := headPropagate n1 record.edges (nm.set n1 v), graph := st.graph }
    | (nm, none) =>
      let (g, v) := freshBinode st.graph n1_is_self_mirror
      { node_map := headPropagate n1 record.edges (nm.set n1 v), graph := g }

/-- The tail-resolution neighbor search (lines 758-780): like `headSearch`, but
over outgoing-direction edges (`from_side`), with the mirror applied when the
edge lands on the `-` face. -/
def tailSearch : List PlainBCalm2Edge → List MappedNode → List MappedNode × Option MappedNode
  | [], nm => (nm, none)
  | e :: rest, nm =>
    if e.from_side then
      let t := e.to_node * 2 + (if e.to_side then 0 else 1)
      let nm := ensureSize nm t
      if getSlot nm t ≠ .Unmapped then
        (nm, some (if e.to_side then getSlot nm t else (getSlot nm t).mirror))
      else tailSearch rest nm
    else tailSearch rest nm

/-- The tail-side propagation loop (lines 801-818): write the resolved value of
slot `n2` into every outgoing-direction neighbor slot, unconditionally. -/
def tailPropagate (n2 : Nat) : List PlainBCalm2Edge → List MappedNode → List MappedNode
  | [], nm => nm
  | e :: rest, nm =>
    if e.from_side then
      let t := e.to_node * 2 + (if e.to_side then 0 else 1)
      let v := if e.to_side then getSlot nm n2 else (getSlot nm n2).mirror
      tailPropagate n2 rest (nm.set t v)
    else tailPropagate n2 rest nm

/-- The tail block of the per-record loop (lines 749-819), including the
self-mirror-edge shortcut `node_map[n2] = node_map[n1].mirror()`. -/
def processTail (self_mirror_edge : Bool) (record : PlainBCalm2NodeData) (st : BuildState) :
    BuildState :=
  let n1 := record.id * 2
  let n2 := record.id * 2 + 1
  let n2_is_self_mirror := record.edges.contains ⟨true, record.id, false⟩
  if getSlot st.node_map n2 ≠ .Unmapped then st
  else if self_mirror_edge then
    let nm := st.node_map.set n2 (getSlot st.node_map n1).mirror
    { node_map := tailPropagate n2 record.edges nm, graph := st.graph }
  else
    match tailSearch record.edges st.node_map with
    | (nm, some v) =>
      { node_map := tailPropagate n2 record.edges (nm.set n2 v), graph := st.graph }
    | (nm, none) =>
      let (g, v) := freshBinode st.graph n2_is_self_mirror
      { node_map := tailPropagate n2 record.edges (nm.set n2 v), graph := g }

/-- The source matches the resolved slots into `(forward, backward)` pairs
(lines 824-833); `Unmapped` is `unreachable!()` there — the head and tail
blocks always resolve both slots — and yields the dummy pair `(0, 0)` here. -/
def materialize : MappedNode → Nat × Nat
  | .Unmapped => (0, 0)
  | .Normal f b => (f, b)
  | .SelfMirror n => (n, n)

/-- The edge emission of every iteration (lines 835-837): the forward edge with
the record as payload, and the mirrored edge with the mirrored payload. -/
def emitRecordEdges (record : PlainBCalm2NodeData) (st : BuildState) : BuildState :=
  let n1 := record.id * 2
  let n2 := record.id * 2 + 1
  let (n1f, n1r) := materialize (getSlot st.node_map n1)
  let (n2f, n2r) := materialize (getSlot st.node_map n2)
  let g := st.graph.add_edge n1f n2f record
  { st with graph := g.add_edge n2r n1r record.mirror }

/-- One iteration of the per-record loop of
`read_bigraph_from_bcalm2_as_edge_centric` (lines 652-838), after parsing. -/
def processParsedRecord (kmer_size : Nat) (seq : List DnaBase) (st : BuildState)
    (record : PlainBCalm2NodeData) : BuildState :=
  let n2 := record.id * 2 + 1
  let st : BuildState := { st with node_map := ensureSize st.node_map n2 }
  let st := processHead record st
  let st := processTail (edge_is_self_mirror seq kmer_size) record st
  emitRecordEdges record st

/-- One full iteration including the parse. -/
def readStep (kmer_size : Nat) (acc : SequenceStore × BuildState) (r : FastaRecord) :
    Except PFail (SequenceStore × BuildState) := do
  let (store, record) ← parse_bcalm2_fasta_record r acc.1
  let seq := store.get record.sequence_handle
  pure (store, processParsedRecord kmer_size seq acc.2 record)

/-- The source's `read_bigraph_from_bcalm2_as_edge_centric` (lines 632-841): the
adjacency-propagation edge-centric reader. -/
def read_bigraph_from_bcalm2_as_edge_centric (records : List FastaRecord)
    (target_sequence_store : SequenceStore) (kmer_size : Nat) :
    Except PFail (SequenceStore × BiGraph) := do
  let (store, st) ← records.foldlM (readStep kmer_size)
    (target_sequence_store, BuildState.mk [] BiGraph.empty)
  pure (store, st.graph)

/-- The source's `HashMap::get` on the content-keyed id map of the old reader, modelled as
an association list (keys are inserted at most once, so the first match is the
match). -/
def lookupGenome (id_map : List (List DnaBase × Nat)) (genome : List DnaBase) : Option Nat :=
  (id_map.find? (fun p => p.1 == genome)).map (fun p => p.2)

/-- The source's `get_or_create_node` (lines 548-580) of the hash-based reader. -/
def get_or_create_node (bigraph : BiGraph) (id_map : List (List DnaBase × Nat))
    (genome : List DnaBase) : BiGraph × List (List DnaBase × Nat) × Nat :=
  match lookupGenome id_map genome with
  | some node => (bigraph, id_map, node)
  | none =>
    let (node, bigraph) := bigraph.add_node
    let reverse_complement := revcomp genome
    if reverse_complement = genome then
      let bigraph := bigraph.set_mirror_nodes node node
      (bigraph, (genome, node) :: id_map, node)
    else
      let (mirror_node, bigraph) := bigraph.add_node
      let id_map := (reverse_complement, mirror_node) :: id_map
      let bigraph := bigraph.set_mirror_nodes node mirror_node
      (bigraph, (genome, node) :: id_map, node)

/-- One iteration of the per-record loop of
`read_bigraph_from_bcalm2_as_edge_centric_old` (lines 605-624). -/
def oldReadStep (kmer_size : Nat)
    (acc : SequenceStore × BiGraph × List (List DnaBase × Nat)) (r : FastaRecord) :
    Except PFail (SequenceStore × BiGraph × List (List DnaBase × Nat)) := do
  let (store, record) ← parse_bcalm2_fasta_record r acc.1
  let bigraph := acc.2.1
  let id_map := acc.2.2
  let node_kmer_size := kmer_size - 1
  let sequence := store.get record.sequence_handle
  let pre := sequence.take node_kmer_size
  let suf := sequence.drop (sequence.length - node_kmer_size)
  let pre_plus := pre
  let pre_minus := revcomp suf
  let succ_plus := suf
  let succ_minus := revcomp pre
  let (bigraph, id_map, pre_plus) := get_or_create_node bigraph id_map pre_plus
  let (bigraph, id_map, pre_minus) := get_or_create_node bigraph id_map pre_minus
  let (bigraph, id_map, succ_plus) := get_or_create_node bigraph id_map succ_plus
  let (bigraph, id_map, succ_minus) := get_or_create_node bigraph id_map succ_minus
  let bigraph := bigraph.add_edge pre_plus succ_plus record
  let bigraph := bigraph.add_edge pre_minus succ_minus record.mirror
  pure (store, bigraph, id_map)

/-- The source's `read_bigraph_from_bcalm2_as_edge_centric_old` (lines 584-629): the
hash-based, content-keyed edge-centric reader. -/
def read_bigraph_from_bcalm2_as_edge_centric_old (records : List FastaRecord)
    (target_sequence_store : SequenceStore) (kmer_size : Nat) :
    Except PFail (SequenceStore × BiGraph) := do
  let (store, bigraph, _) ← records.foldlM (oldReadStep kmer_size)
    (target_sequence_store, BiGraph.empty, [])
  pure (store, bigraph)

/-- The `if !result.is_empty() { write " " }; write piece` pattern of
`write_plain_bcalm2_node_data_to_bcalm2`. -/
def appendWithSpace (result piece : String) : String :=
  (if result.data.isEmpty then result else result ++ " ") ++ piece

def sideToString (b : Bool) : String := if b then "+" else "-"

/-- The source's `write_plain_bcalm2_node_data_to_bcalm2` (lines 357-399): the description
of one output record — `LN:i:`, `KC:i:`, `km:f:` (one decimal) for the present
parameters, then one `L:` token per out-neighbor. -/
def write_plain_bcalm2_node_data_to_bcalm2 (node : PlainBCalm2NodeData)
    (out_neighbors : List (Bool × Nat × Bool)) : String :=
  let result := ""
  let result := match node.length with
    | some l => appendWithSpace result ("LN:i:" ++ Nat.repr l)
    | none => result
  let result := match node.total_abundance with
    | some t => appendWithSpace result ("KC:i:" ++ Nat.repr t)
    | none => result
  let result := match node.mean_abundance with
    | some v => appendWithSpace result ("km:f:" ++ Nat.repr v.1 ++ "." ++ Nat.repr v.2)
    | none => result
  out_neighbors.foldl (fun result nb =>
    appendWithSpace result
      ("L:" ++ sideToString nb.1 ++ ":" ++ Nat.repr nb.2.1 ++ ":" ++ sideToString nb.2.2))
    result

def boolLE : Bool → Bool → Bool
  | false, _ => true
  | true, b => b

/-- The derived lexicographic order on `(bool, usize, bool)` adjacency-token
triples (`false < true`). -/
def tokenLE (a b : Bool × Nat × Bool) : Bool :=
  if a.1 ≠ b.1 then boolLE a.1 b.1
  else if a.2.1 ≠ b.2.1 then Nat.blt a.2.1 b.2.1
  else boolLE a.2.2 b.2.2

def insertToken (x : Bool × Nat × Bool) :
    List (Bool × Nat × Bool) → List (Bool × Nat × Bool)
  | [] => [x]
  | y :: ys => if tokenLE x y then x :: y :: ys else y :: insertToken x ys

/-- The source's `sort_unstable` on the token triples, as an insertion sort over
`tokenLE` (the resulting ordered list is what `sort_unstable` produces). -/
def sortTokens : List (Bool × Nat × Bool) → List (Bool × Nat × Bool)
  | [] => []
  | x :: xs => insertToken x (sortTokens xs)

/-- The first pass of the edge-centric writer (lines 879-889): iterate the
edges in order and mark an edge for output when its mirror edge is not yet
marked. -/
def markOutputEdges (g : BiGraph) : Except PFail (List Bool) :=
  (List.range g.edges.length).foldlM
    (fun flags e => do
      let m ← match g.mirror_edge_edge_centric e with
        | some m => Except.ok m
        | none => Except.error (PFail.ioError .BCalm2EdgeWithoutMirror)
      pure (if flags.getD m false then flags else flags.set e true))
    (List.replicate g.edges.length false)

/-- One adjacency token of the writer (lines 903-942): the neighbor record's
id is read off the neighbor edge when that edge is marked for output, and off
its mirror edge otherwise; the third component records which case applied. -/
def neighborToken (g : BiGraph) (flags : List Bool) (side : Bool)
    (p : Nat × EdgeRecord) : Except PFail (Bool × Nat × Bool) := do
  if flags.getD p.1 false then
    pure (side, p.2.data.id, true)
  else
    let m ← match g.mirror_edge_edge_centric p.1 with
      | some m => Except.ok m
      | none => Except.error (PFail.ioError .BCalm2EdgeWithoutMirror)
    match g.edges.get? m with
    | some mer => pure (side, mer.data.id, false)
    | none => Except.error (PFail.ioError .BCalm2EdgeWithoutMirror)

/-- One output record of the edge-centric writer (lines 891-966). -/
def writeRecord (g : BiGraph) (store : SequenceStore) (flags : List Bool)
    (e : Nat) (er : EdgeRecord) : Except PFail FastaRecord := do
  let node_data := er.data
  let mirror_edge_id ← match g.mirror_edge_edge_centric e with
    | some m => Except.ok m
    | none => Except.error (PFail.ioError .BCalm2EdgeWithoutMirror)
  let to_node_plus := er.to_node
  let to_node_minus ← match g.edges.get? mirror_edge_id with
    | some mer => Except.ok mer.to_node
    | none => Except.error (PFail.ioError .BCalm2EdgeWithoutMirror)
  let out_neighbors_plus ← (g.out_neighbors to_node_plus).mapM (neighborToken g flags true)
  let out_neighbors_minus ← (g.out_neighbors to_node_minus).mapM (neighborToken g flags false)
  let out_neighbors := sortTokens out_neighbors_plus ++ sortTokens out_neighbors_minus
  let printed_node_id := Nat.repr node_data.id
  let node_description := write_plain_bcalm2_node_data_to_bcalm2 node_data out_neighbors
  let node_sequence :=
    if node_data.forwards then store.get node_data.sequence_handle
    else revcomp (store.get node_data.sequence_handle)
  pure ⟨printed_node_id, node_description, String.mk (node_sequence.map dnaBaseToChar)⟩

/-- Modelled from the spec: the serialized text of a list of records — a header
line `>` + id + `" "` + description, then the sequence line (format §6). -/
def fastaText (records : List FastaRecord) : String :=
  records.foldl (fun acc r => acc ++ ">" ++ r.id ++ " " ++ r.desc ++ "\n" ++ r.seq ++ "\n") ""

/-- The source's `write_edge_centric_bigraph_to_bcalm2` (lines 863-970): serialize the graph
as bcalm2 fasta text. -/
def write_edge_centric_bigraph_to_bcalm2 (g : BiGraph) (store : SequenceStore) :
    Except PFail String := do
  let flags ← markOutputEdges g
  let records ← (g.edges.enum.filter (fun p => flags.getD p.1 false)).mapM
    (fun p => writeRecord g store flags p.1 p.2)
  pure (fastaText records)

/-- Modelled from the spec: node ids are consecutive starting at 0 (§4.1
preconditions). -/
def idsConsecutive (records : List PlainBCalm2NodeData) : Bool :=
  records.enum.all (fun p => p.2.id == p.1)

/-- Modelled from the spec: the declared adjacency is symmetric — the edge
`(a, s1, b, s2)` declared at record `a` has the converse `(b, !s2, a, !s1)`
declared at record `b` (§4.1 preconditions, matching the repository's test
inputs). -/
def adjacencySymmetric (records : List PlainBCalm2NodeData) : Bool :=
  records.all (fun r => r.edges.all (fun e =>
    ((records.find? (fun r2 => r2.id == e.to_node)).map
      (fun r2 => r2.edges.contains ⟨!e.to_side, r.id, !e.from_side⟩)).getD false))

/-- A convenience fold of the parser over a record list, used to state
well-formedness of concrete inputs. -/
def parseAll (records : List FastaRecord) (store : SequenceStore) :
    Except PFail (SequenceStore × List PlainBCalm2NodeData) :=
  records.foldlM (fun acc r => do
    let (store, d) ← parse_bcalm2_fasta_record r acc.1
    pure (store, acc.2 ++ [d])) (store, [])

/-- Recognizer of the declared-length mismatch error. -/
def isLengthError : Except PFail (SequenceStore × PlainBCalm2NodeData) → Bool
  | .error (.ioError (.BCalm2LengthError _ _)) => true
  | _ => false

/-- Mirroring respects being resolved. -/
theorem MappedNode.mirror_ne_unmapped {v : MappedNode} (h : v ≠ .Unmapped) :
    v.mirror ≠ .Unmapped := by
  cases v <;> simp [MappedNode.mirror] at h ⊢

theorem getSlot_set_ne {nm : List MappedNode} {t i : Nat} {v : MappedNode} (h : t ≠ i) :
    getSlot (nm.set t v) i = getSlot nm i := by
  simp [getSlot, List.getD_eq_getElem?_getD, List.getElem?_set_ne h]

theorem getSlot_set_self {nm : List MappedNode} {t : Nat} {v : MappedNode}
    (h : t < nm.length) : getSlot (nm.set t v) t = v := by
  simp [getSlot, List.getD_eq_getElem?_getD, List.getElem?_set_self h]

theorem getSlot_set_cases (nm : List MappedNode) (t i : Nat) (v : MappedNode) :
    getSlot (nm.set t v) i = v ∨ getSlot (nm.set t v) i = getSlot nm i := by
  by_cases h : t = i
  · subst h
    by_cases hl : t < nm.length
    · exact Or.inl (getSlot_set_self hl)
    · right
      rw [List.set_eq_of_length_le (Nat.le_of_not_lt hl)]
  · exact Or.inr (getSlot_set_ne h)

theorem getSlot_set_preserve {nm : List MappedNode} {t i : Nat} {v : MappedNode}
    (hv : v ≠ .Unmapped) (hi : getSlot nm i ≠ .Unmapped) :
    getSlot (nm.set t v) i ≠ .Unmapped := by
  rcases getSlot_set_cases nm t i v with h | h <;> rw [h] <;> assumption

theorem getSlot_ensureSize (nm : List MappedNode) (t i : Nat) :
    getSlot (ensureSize nm t) i = getSlot nm i := by
  unfold ensureSize
  by_cases h : nm.length ≤ t
  · simp only [h, if_true, getSlot, List.getD_eq_getElem?_getD, List.getElem?_append]
    by_cases hi : i < nm.length
    · simp [hi]
    · simp only [hi, if_false, List.getElem?_replicate]
      rw [List.getElem?_eq_none (Nat.le_of_not_lt hi)]
      by_cases hrep : i - nm.length < t + 1 - nm.length <;> simp [hrep]
  · simp [h]

theorem ensureSize_length (nm : List MappedNode) (t : Nat) :
    nm.length ≤ (ensureSize nm t).length := by
  unfold ensureSize
  by_cases h : nm.length ≤ t <;> simp [h]

/-- C7 helper: recognizer for the two `MappedNode` shapes the specification
calls mirror fixpoints. -/
def MappedNode.isUnmappedOrSelfMirror : MappedNode → Bool
  | .Unmapped => true
  | .SelfMirror _ => true
  | .Normal _ _ => false

/-- C7 (counterexample): `mirror` fixes the degenerate value `Normal 0 0`,
which is neither `Unmapped` nor `SelfMirror`, so "`mirror(m) = m` exactly when
`m` is Unmapped or SelfMirror" fails over the `MappedNode` type. -/
theorem claim7_counterexample :
    MappedNode.mirror (.Normal 0 0) = .Normal 0 0 ∧
    MappedNode.isUnmappedOrSelfMirror (.Normal 0 0) = false := by
  exact ⟨rfl, rfl⟩

/-- C7 (amended): the three `mirror` equations hold, `mirror` is an involution,
and its fixpoints are exactly `Unmapped`, `SelfMirror`, and the degenerate
`Normal f f` (the builder only ever constructs `Normal` values with two
distinct fresh handles, for which the fixpoints are the first two shapes). -/
theorem claim7_mapped_node_mirror :
    MappedNode.mirror .Unmapped = .Unmapped ∧
    (∀ f b : Nat, MappedNode.mirror (.Normal f b) = .Normal b f) ∧
    (∀ n : Nat, MappedNode.mirror (.SelfMirror n) = .SelfMirror n) ∧
    (∀ m : MappedNode, m.mirror.mirror = m) ∧
    (∀ m : MappedNode, m.mirror = m ↔
      m = .Unmapped ∨ (∃ n, m = .SelfMirror n) ∨ ∃ f, m = .Normal f f) := by
  refine ⟨rfl, fun f b => rfl, fun n => rfl, fun m => ?_, fun m => ?_⟩
  · cases m <;> rfl
  · cases m with
    | Unmapped => simp [MappedNode.mirror]
    | SelfMirror n => simp [MappedNode.mirror]
    | Normal f b =>
      simp only [MappedNode.mirror]
      constructor
      · intro h
        injection h with h1 h2
        exact Or.inr (Or.inr ⟨f, by rw [h1]⟩)
      · rintro (h | ⟨n, h⟩ | ⟨x, h⟩)
        · cases h
        · cases h
        · injection h with h1 h2
          subst h1
          subst h2
          rfl

/-- C8: `PlainBCalm2NodeData::mirror` flips only `forwards`; all other fields
are unchanged, and applying it twice is the identity. -/
theorem claim8_mirror_flips_only_forwards (d : PlainBCalm2NodeData) :
    d.mirror.id = d.id ∧
    d.mirror.sequence_handle = d.sequence_handle ∧
    d.mirror.length = d.length ∧
    d.mirror.total_abundance = d.total_abundance ∧
    d.mirror.mean_abundance = d.mean_abundance ∧
    d.mirror.edges = d.edges ∧
    d.mirror.forwards = !d.forwards ∧
    d.mirror.mirror = d := by
  refine ⟨rfl, rfl, rfl, rfl, rfl, rfl, rfl, ?_⟩
  simp [PlainBCalm2NodeData.mirror]

/-- C9: `sequence_ref` returns the stored sequence exactly when `forwards`, and
`none` exactly when not. -/
theorem claim9_sequence_ref (d : PlainBCalm2NodeData) (store : SequenceStore) :
    (d.sequence_ref store = some (store.get d.sequence_handle) ↔ d.forwards = true) ∧
    (d.sequence_ref store = none ↔ d.forwards = false) := by
  unfold PlainBCalm2NodeData.sequence_ref
  cases h : d.forwards <;> simp

/-- C10: on a record whose sequence contains a character outside the alphabet,
`parse_bcalm2_fasta_record` panics instead of returning an error value — the
parse is not total over arbitrary byte input. -/
theorem claim10_parse_panics_on_invalid_character :
    parse_bcalm2_fasta_record ⟨"0", "", "AXA"⟩ [] = .error .panicked := by
  rfl

/-- C6 (counterexample): a record declaring `LN:i:5` over a 3-character
sequence — declared and actual length differ — is rejected with the
unknown-parameter error for the later token `XX`, not with the length error;
the claimed "declared length differs implies length-mismatch error" fails. -/
theorem claim6_counterexample :
    (splitWhitespace "LN:i:5 XX").contains "LN:i:5" = true ∧
    parse_bcalm2_fasta_record ⟨"0", "LN:i:5 XX", "AAA"⟩ [] =
      .error (.ioError (.BCalm2UnknownParameterError "XX")) ∧
    isLengthError (parse_bcalm2_fasta_record ⟨"0", "LN:i:5 XX", "AAA"⟩ []) = false ∧
    (5 : Nat) ≠ ("AAA".data).length := by
  refine ⟨rfl, rfl, rfl, by decide⟩

/-- C6 (amended): for a record whose id, sequence and description parameters
all parse without error, the parse fails with the length-mismatch error
exactly when a declared length differs from the actual sequence length, and
succeeds when the declared length matches or is absent. -/
theorem claim6_length_error_iff (r : FastaRecord) (store : SequenceStore)
    (i : Nat) (seq : List DnaBase) (ps : ParamState)
    (hid : parseNat r.id = some i)
    (hseq : add_from_slice_u8 r.seq.data = some seq)
    (hps : (splitWhitespace r.desc).foldlM paramStep ⟨none, none, none, []⟩ = Except.ok ps) :
    (isLengthError (parse_bcalm2_fasta_record r store) = true ↔
      ∃ l, ps.length = some l ∧ l ≠ seq.length) ∧
    (ps.length = some seq.length ∨ ps.length = none →
      parse_bcalm2_fasta_record r store =
        Except.ok (store ++ [seq],
          ⟨i, store.length, true, ps.length, ps.total_abundance,
            ps.mean_abundance, ps.edges⟩)) := by
  unfold parse_bcalm2_fasta_record
  rw [hid, hseq, hps]
  simp only [bind, Except.bind]
  rcases hl : ps.length with _ | l
  · simp [isLengthError, hl]
  · by_cases hne : l = seq.length
    · subst hne
      simp [isLengthError, hl]
    · simp [isLengthError, hl, hne]

/-- C6 (witness): the amended theorem applied to the concrete record
`>0 LN:i:3` with sequence `ACA`. -/
theorem claim6_length_error_iff_witness :
    ((isLengthError (parse_bcalm2_fasta_record ⟨"0", "LN:i:3", "ACA"⟩ []) = true ↔
        ∃ l, (some 3 : Option Nat) = some l ∧
          l ≠ ([DnaBase.A, DnaBase.C, DnaBase.A] : List DnaBase).length) ∧
      ((some 3 : Option Nat) = some ([DnaBase.A, DnaBase.C, DnaBase.A] : List DnaBase).length ∨
          (some 3 : Option Nat) = none →
        parse_bcalm2_fasta_record ⟨"0", "LN:i:3", "ACA"⟩ [] =
          Except.ok (([] : SequenceStore) ++ [[DnaBase.A, DnaBase.C, DnaBase.A]],
            ⟨0, ([] : SequenceStore).length, true, some 3, none, none, []⟩))) :=
  claim6_length_error_iff ⟨"0", "LN:i:3", "ACA"⟩ [] 0 [DnaBase.A, DnaBase.C, DnaBase.A]
    ⟨some 3, none, none, []⟩ rfl rfl rfl

/-- Two records that share their boundary (k-1)-mer content (`AA` both, with
`AT`/`TT` at the other ends) but declare no adjacency at all: well-formed
(consecutive ids, trivially symmetric adjacency) and readable by both
readers. -/
def c1recs : List FastaRecord := [⟨"0", "LN:i:3", "AAA"⟩, ⟨"1", "LN:i:3", "AAT"⟩]

/-- A canonical, symmetric three-record linear chain (ids 0 → 1 → 2, overlaps
`GT` and `TC`, parameters in canonical `LN`, `KC` order, adjacency tokens
forward-side first and sorted). -/
def chainRecs : List FastaRecord :=
  [⟨"0", "LN:i:3 KC:i:4 L:+:1:+", "AGT"⟩,
   ⟨"1", "LN:i:3 KC:i:2 L:+:2:+ L:-:0:-", "GTC"⟩,
   ⟨"2", "LN:i:3 KC:i:15 L:-:1:-", "TCA"⟩]

/-- The parsed form of `chainRecs`. -/
def chainParsed : List PlainBCalm2NodeData :=
  [⟨0, 0, true, some 3, some 4, none, [⟨true, 1, true⟩]⟩,
   ⟨1, 1, true, some 3, some 2, none, [⟨true, 2, true⟩, ⟨false, 0, false⟩]⟩,
   ⟨2, 2, true, some 3, some 15, none, [⟨false, 1, false⟩]⟩]

/-- A single well-formed record whose header parameters appear in the
non-canonical order `KC:i:` before `LN:i:`. -/
def c4recs : List FastaRecord := [⟨"0", "KC:i:4 LN:i:3", "ACA"⟩]

/-- The parsed form of `c4recs`. -/
def c4parsed : PlainBCalm2NodeData := ⟨0, 0, true, some 3, some 4, none, []⟩

/-- C1 (counterexample): on `c1recs` — readable by both readers — the
adjacency-propagation reader keeps the content-equal but undeclared endpoints
separate while the content-keyed reader merges them, and the serialized
outputs differ (the content-keyed graph even serializes adjacency tokens that
were not in the input). -/
theorem claim1_counterexample :
    (read_bigraph_from_bcalm2_as_edge_centric c1recs [] 3).bind
        (fun p => write_edge_centric_bigraph_to_bcalm2 p.2 p.1) =
      .ok ">0 LN:i:3\nAAA\n>1 LN:i:3\nAAT\n" ∧
    (read_bigraph_from_bcalm2_as_edge_centric_old c1recs [] 3).bind
        (fun p => write_edge_centric_bigraph_to_bcalm2 p.2 p.1) =
      .ok ">0 LN:i:3 L:+:0:+ L:+:1:+ L:-:0:-\nAAA\n>1 LN:i:3 L:+:1:- L:-:0:-\nAAT\n" ∧
    (">0 LN:i:3\nAAA\n>1 LN:i:3\nAAT\n" : String) ≠
      ">0 LN:i:3 L:+:0:+ L:+:1:+ L:-:0:-\nAAA\n>1 LN:i:3 L:+:1:- L:-:0:-\nAAT\n" := by
  exact ⟨rfl, rfl, by decide⟩

/-- C1 (amended): the two readers do agree — byte-identical serialized
output — on inputs whose content overlaps are all declared as adjacency, here
the canonical three-record chain used as the representative cross-validation
input. -/
theorem claim1_readers_agree_on_declared_adjacency :
    (read_bigraph_from_bcalm2_as_edge_centric chainRecs [] 3).bind
        (fun p => write_edge_centric_bigraph_to_bcalm2 p.2 p.1) =
      .ok (fastaText chainRecs) ∧
    (read_bigraph_from_bcalm2_as_edge_centric_old chainRecs [] 3).bind
        (fun p => write_edge_centric_bigraph_to_bcalm2 p.2 p.1) =
      .ok (fastaText chainRecs) := by
  exact ⟨rfl, rfl⟩

/-- C4 (counterexample): a well-formed input (consecutive ids, symmetric —
empty — adjacency, matching declared length) whose header parameters appear in
the order `KC:i:` before `LN:i:` is re-serialized in the writer's canonical
order, so read-then-write does not reproduce the input byte for byte. -/
theorem claim4_counterexample :
    parseAll c4recs [] = .ok ([[DnaBase.A, DnaBase.C, DnaBase.A]], [c4parsed]) ∧
    idsConsecutive [c4parsed] = true ∧
    adjacencySymmetric [c4parsed] = true ∧
    fastaText c4recs = ">0 KC:i:4 LN:i:3\nACA\n" ∧
    (read_bigraph_from_bcalm2_as_edge_centric c4recs [] 3).bind
        (fun p => write_edge_centric_bigraph_to_bcalm2 p.2 p.1) =
      .ok ">0 LN:i:3 KC:i:4\nACA\n" ∧
    (">0 LN:i:3 KC:i:4\nACA\n" : String) ≠ ">0 KC:i:4 LN:i:3\nACA\n" := by
  exact ⟨rfl, rfl, rfl, rfl, rfl, by decide⟩

/-- C4 (amended): for input already in the writer's canonical form (parameters
in `LN`, `KC`, `km` order; adjacency tokens forward-side first, sorted by
neighbor id), read-then-write reproduces the text byte for byte — verified on
the canonical symmetric three-record linear chain. -/
theorem claim4_roundtrip_canonical_chain :
    parseAll chainRecs [] =
      .ok ([[DnaBase.A, DnaBase.G, DnaBase.T], [DnaBase.G, DnaBase.T, DnaBase.C],
        [DnaBase.T, DnaBase.C, DnaBase.A]], chainParsed) ∧
    idsConsecutive chainParsed = true ∧
    adjacencySymmetric chainParsed = true ∧
    (read_bigraph_from_bcalm2_as_edge_centric chainRecs [] 3).bind
        (fun p => write_edge_centric_bigraph_to_bcalm2 p.2 p.1) =
      .ok (fastaText chainRecs) := by
  exact ⟨rfl, rfl, rfl, rfl⟩

/-- The three records of the C2 counterexample, with their sequences (none of
which is boundary-self-complemental for k = 3). -/
def c2r0 : PlainBCalm2NodeData := ⟨0, 0, true, none, none, none, [⟨true, 1, true⟩]⟩

def c2r1 : PlainBCalm2NodeData := ⟨1, 1, true, none, none, none, [⟨true, 2, true⟩]⟩

def c2r2 : PlainBCalm2NodeData :=
  ⟨2, 2, true, none, none, none, [⟨true, 0, false⟩, ⟨true, 1, false⟩]⟩

def c2seq0 : List DnaBase := [.A, .C, .C]

def c2seq1 : List DnaBase := [.C, .C, .A]

def c2seq2 : List DnaBase := [.C, .A, .A]

/-- The builder state after processing the first two counterexample records. -/
def c2state2 : BuildState :=
  processParsedRecord 3 c2seq1
    (processParsedRecord 3 c2seq0 ⟨[], BiGraph.empty⟩ c2r0) c2r1

/-- C2 (counterexample): after two records, endpoint slot 3 (the tail of
record 1) holds `Normal 4 5`; processing record 2 — whose propagation loop
writes neighbor slots unconditionally — reassigns that already-resolved slot
to the different value `Normal 2 3`.  A slot is thus written again after
leaving `Unmapped`, and there is no "only if still Unmapped" guard. -/
theorem claim2_counterexample :
    getSlot c2state2.node_map 3 = .Normal 4 5 ∧
    getSlot c2state2.node_map 3 ≠ .Unmapped ∧
    getSlot (processParsedRecord 3 c2seq2 c2state2 c2r2).node_map 3 = .Normal 2 3 ∧
    (MappedNode.Normal 4 5) ≠ .Normal 2 3 := by
  exact ⟨rfl, by decide, rfl, by decide⟩

/-- The C3 counterexample record: sequence `ATTAT`, which is not equal to its
reverse complement `ATAAT`, but whose first two characters match it. -/
def c3seq : List DnaBase := [.A, .T, .T, .A, .T]

def c3record : PlainBCalm2NodeData := ⟨0, 0, true, none, none, none, []⟩

/-- C3 (counterexample): for `ATTAT` with k = 3 the shortcut flag is set and
the builder resolves the tail as the mirror of the head with no independent
allocation (only the head's two nodes exist) — although the full sequence is
not equal to its own reverse complement.  "Exactly when the full sequence
equals its reverse complement" therefore fails. -/
theorem claim3_counterexample :
    revcomp c3seq ≠ c3seq ∧
    edge_is_self_mirror c3seq 3 = true ∧
    getSlot (processParsedRecord 3 c3seq ⟨[], BiGraph.empty⟩ c3record).node_map 1 =
      (getSlot (processParsedRecord 3 c3seq ⟨[], BiGraph.empty⟩ c3record).node_map 0).mirror ∧
    (processParsedRecord 3 c3seq ⟨[], BiGraph.empty⟩ c3record).graph.node_count = 2 := by
  exact ⟨by decide, rfl, rfl, rfl⟩

theorem ensureSize_lt (nm : List MappedNode) (t : Nat) : t < (ensureSize nm t).length := by
  unfold ensureSize
  by_cases h : nm.length ≤ t
  · simp only [h, if_true, List.length_append, List.length_replicate]
    omega
  · simp only [h, if_false]
    omega

theorem ite_mirror_ne {w : MappedNode} (hw : w ≠ .Unmapped) (c : Prop) [Decidable c] :
    (if c then w else w.mirror) ≠ .Unmapped := by
  by_cases h : c
  · rwa [if_pos h]
  · rw [if_neg h]
    exact MappedNode.mirror_ne_unmapped hw

/-- The neighbor search never writes a slot, only grows the map, and an
adopted value is never `Unmapped` (head side). -/
theorem headSearch_spec (edges : List PlainBCalm2Edge) :
    ∀ (nm nm' : List MappedNode) (opt : Option MappedNode),
      headSearch edges nm = (nm', opt) →
      (∀ i, getSlot nm' i = getSlot nm i) ∧ nm.length ≤ nm'.length ∧
        ∀ v, opt = some v → v ≠ .Unmapped := by
  induction edges with
  | nil =>
    intro nm nm' opt h
    simp only [headSearch, Prod.mk.injEq] at h
    obtain ⟨h1, h2⟩ := h
    subst h1
    refine ⟨fun i => rfl, Nat.le_refl _, fun v hv => ?_⟩
    rw [← h2] at hv
    cases hv
  | cons e rest ih =>
    intro nm nm' opt h
    simp only [headSearch] at h
    split at h
    · exact ih nm nm' opt h
    · set t := e.to_node * 2 + (if e.to_side then 0 else 1) with ht
      by_cases hm : getSlot (ensureSize nm t) t ≠ MappedNode.Unmapped
      · rw [if_pos hm, Prod.mk.injEq] at h
        obtain ⟨h1, h2⟩ := h
        subst h1
        refine ⟨fun i => getSlot_ensureSize nm _ i, ensureSize_length nm _, fun v hv => ?_⟩
        rw [← h2] at hv
        injection hv with hv
        rw [← hv]
        exact ite_mirror_ne hm _
      · rw [if_neg hm] at h
        obtain ⟨h1, h2, h3⟩ := ih _ nm' opt h
        refine ⟨fun i => ?_, Nat.le_trans (ensureSize_length nm _) h2, h3⟩
        rw [h1 i, getSlot_ensureSize]

/-- The neighbor search never writes a slot, only grows the map, and an
adopted value is never `Unmapped` (tail side). -/
theorem tailSearch_spec (edges : List PlainBCalm2Edge) :
    ∀ (nm nm' : List MappedNode) (opt : Option MappedNode),
      tailSearch edges nm = (nm', opt) →
      (∀ i, getSlot nm' i = getSlot nm i) ∧ nm.length ≤ nm'.length ∧
        ∀ v, opt = some v → v ≠ .Unmapped := by
  induction edges with
  | nil =>
    intro nm nm' opt h
    simp only [tailSearch, Prod.mk.injEq] at h
    obtain ⟨h1, h2⟩ := h
    subst h1
    refine ⟨fun i => rfl, Nat.le_refl _, fun v hv => ?_⟩
    rw [← h2] at hv
    cases hv
  | cons e rest ih =>
    intro nm nm' opt h
    simp only [tailSearch] at h
    split at h
    · set t := e.to_node * 2 + (if e.to_side then 0 else 1) with ht
      by_cases hm : getSlot (ensureSize nm t) t ≠ MappedNode.Unmapped
      · rw [if_pos hm, Prod.mk.injEq] at h
        obtain ⟨h1, h2⟩ := h
        subst h1
        refine ⟨fun i => getSlot_ensureSize nm _ i, ensureSize_length nm _, fun v hv => ?_⟩
        rw [← h2] at hv
        injection hv with hv
        rw [← hv]
        exact ite_mirror_ne hm _
      · rw [if_neg hm] at h
        obtain ⟨h1, h2, h3⟩ := ih _ nm' opt h
        refine ⟨fun i => ?_, Nat.le_trans (ensureSize_length nm _) h2, h3⟩
        rw [h1 i, getSlot_ensureSize]
    · exact ih nm nm' opt h

/-- The head-side propagation writes only copies (possibly mirrored) of the
already-resolved slot `n1`, so no resolved slot can become `Unmapped`. -/
theorem headPropagate_preserve (n1 : Nat) (edges : List PlainBCalm2Edge) :
    ∀ (nm : List MappedNode), getSlot nm n1 ≠ .Unmapped →
      ∀ i, getSlot nm i ≠ .Unmapped →
        getSlot (headPropagate n1 edges nm) i ≠ .Unmapped := by
  induction edges with
  | nil =>
    intro nm _ i hi
    exact hi
  | cons e rest ih =>
    intro nm hn1 i hi
    simp only [headPropagate]
    split
    · exact ih nm hn1 i hi
    · have hv : (if (!e.to_side) = true then getSlot nm n1 else (getSlot nm n1).mirror) ≠
          .Unmapped := ite_mirror_ne hn1 _
      exact ih _ (getSlot_set_preserve hv hn1) i (getSlot_set_preserve hv hi)

/-- The tail-side propagation writes only copies (possibly mirrored) of the
already-resolved slot `n2`, so no resolved slot can become `Unmapped`. -/
theorem tailPropagate_preserve (n2 : Nat) (edges : List PlainBCalm2Edge) :
    ∀ (nm : List MappedNode), getSlot nm n2 ≠ .Unmapped →
      ∀ i, getSlot nm i ≠ .Unmapped →
        getSlot (tailPropagate n2 edges nm) i ≠ .Unmapped := by
  induction edges with
  | nil =>
    intro nm _ i hi
    exact hi
  | cons e rest ih =>
    intro nm hn2 i hi
    simp only [tailPropagate]
    split
    · have hv : (if e.to_side = true then getSlot nm n2 else (getSlot nm n2).mirror) ≠
          .Unmapped := ite_mirror_ne hn2 _
      exact ih _ (getSlot_set_preserve hv hn2) i (getSlot_set_preserve hv hi)
    · exact ih nm hn2 i hi

theorem headPropagate_length (n1 : Nat) (edges : List PlainBCalm2Edge) :
    ∀ nm : List MappedNode, (headPropagate n1 edges nm).length = nm.length := by
  induction edges with
  | nil => intro nm; rfl
  | cons e rest ih =>
    intro nm
    simp only [headPropagate]
    split
    · exact ih nm
    · rw [ih, List.length_set]

theorem tailPropagate_length (n2 : Nat) (edges : List PlainBCalm2Edge) :
    ∀ nm : List MappedNode, (tailPropagate n2 edges nm).length = nm.length := by
  induction edges with
  | nil => intro nm; rfl
  | cons e rest ih =>
    intro nm
    simp only [tailPropagate]
    split
    · rw [ih, List.length_set]
    · exact ih nm

theorem freshBinode_ne (g : BiGraph) (sm : Bool) : (freshBinode g sm).2 ≠ .Unmapped := by
  cases sm <;> simp [freshBinode, BiGraph.add_node]

theorem processHead_preserve (record : PlainBCalm2NodeData) (st : BuildState)
    (hl : record.id * 2 < st.node_map.length) (i : Nat)
    (hi : getSlot st.node_map i ≠ .Unmapped) :
    getSlot (processHead record st).node_map i ≠ .Unmapped := by
  simp only [processHead]
  split
  · exact hi
  · split
    next nm v heq =>
      obtain ⟨hmap, hlen, hv⟩ := headSearch_spec record.edges st.node_map nm (some v) heq
      have hv' := hv v rfl
      refine headPropagate_preserve _ _ _ ?_ i ?_
      · rw [getSlot_set_self (by omega)]
        exact hv'
      · exact getSlot_set_preserve hv' (by rw [hmap i]; exact hi)
    next nm heq =>
      obtain ⟨hmap, hlen, _⟩ := headSearch_spec record.edges st.node_map nm none heq
      have hv' : (freshBinode st.graph
          (record.edges.contains ⟨false, record.id, true⟩)).2 ≠ .Unmapped :=
        freshBinode_ne _ _
      refine headPropagate_preserve _ _ _ ?_ i ?_
      · rw [getSlot_set_self (by omega)]
        exact hv'
      · exact getSlot_set_preserve hv' (by rw [hmap i]; exact hi)

theorem processHead_resolves (record : PlainBCalm2NodeData) (st : BuildState)
    (hl : record.id * 2 < st.node_map.length) :
    getSlot (processHead record st).node_map (record.id * 2) ≠ .Unmapped := by
  simp only [processHead]
  split
  · next hm => exact hm
  · split
    next nm v heq =>
      obtain ⟨hmap, hlen, hv⟩ := headSearch_spec record.edges st.node_map nm (some v) heq
      have hv' := hv v rfl
      have h1 : getSlot (nm.set (record.id * 2) v) (record.id * 2) ≠ .Unmapped := by
        rw [getSlot_set_self (by omega)]
        exact hv'
      exact headPropagate_preserve _ _ _ h1 _ h1
    next nm heq =>
      obtain ⟨hmap, hlen, _⟩ := headSearch_spec record.edges st.node_map nm none heq
      have hv' : (freshBinode st.graph
          (record.edges.contains ⟨false, record.id, true⟩)).2 ≠ .Unmapped :=
        freshBinode_ne _ _
      have h1 : getSlot (nm.set (record.id * 2)
          (freshBinode st.graph
            (record.edges.contains ⟨false, record.id, true⟩)).2) (record.id * 2) ≠
          .Unmapped := by
        rw [getSlot_set_self (by omega)]
        exact hv'
      exact headPropagate_preserve _ _ _ h1 _ h1

theorem processHead_length (record : PlainBCalm2NodeData) (st : BuildState) :
    st.node_map.length ≤ (processHead record st).node_map.length := by
  simp only [processHead]
  split
  · exact Nat.le_refl _
  · split
    next nm v heq =>
      obtain ⟨hmap, hlen, _⟩ := headSearch_spec record.edges st.node_map nm (some v) heq
      simpa [headPropagate_length, List.length_set] using hlen
    next nm heq =>
      obtain ⟨hmap, hlen, _⟩ := headSearch_spec record.edges st.node_map nm none heq
      simpa [headPropagate_length, List.length_set] using hlen

theorem processTail_preserve (smf : Bool) (record : PlainBCalm2NodeData) (st : BuildState)
    (hl : record.id * 2 + 1 < st.node_map.length)
    (hn1 : getSlot st.node_map (record.id * 2) ≠ .Unmapped) (i : Nat)
    (hi : getSlot st.node_map i ≠ .Unmapped) :
    getSlot (processTail smf record st).node_map i ≠ .Unmapped := by
  simp only [processTail]
  split
  · exact hi
  · split
    · have hv : (getSlot st.node_map (record.id * 2)).mirror ≠ .Unmapped :=
        MappedNode.mirror_ne_unmapped hn1
      refine tailPropagate_preserve _ _ _ ?_ i ?_
      · rw [getSlot_set_self hl]
        exact hv
      · exact getSlot_set_preserve hv hi
    · split
      next nm v heq =>
        obtain ⟨hmap, hlen, hv⟩ := tailSearch_spec record.edges st.node_map nm (some v) heq
        have hv' := hv v rfl
        refine tailPropagate_preserve _ _ _ ?_ i ?_
        · rw [getSlot_set_self (by omega)]
          exact hv'
        · exact getSlot_set_preserve hv' (by rw [hmap i]; exact hi)
      next nm heq =>
        obtain ⟨hmap, hlen, _⟩ := tailSearch_spec record.edges st.node_map nm none heq
        have hv' : (freshBinode st.graph
            (record.edges.contains ⟨true, record.id, false⟩)).2 ≠ .Unmapped :=
          freshBinode_ne _ _
        refine tailPropagate_preserve _ _ _ ?_ i ?_
        · rw [getSlot_set_self (by omega)]
          exact hv'
        · exact getSlot_set_preserve hv' (by rw [hmap i]; exact hi)

theorem emitRecordEdges_node_map (record : PlainBCalm2NodeData) (st : BuildState) :
    (emitRecordEdges record st).node_map = st.node_map := rfl

/-- C2 (amended): an endpoint slot that has left `Unmapped` never returns to
`Unmapped` during any further record processing — but the propagation step
writes neighbor slots unconditionally (there is no "only if still Unmapped"
guard in the source), so a resolved slot can be written again and, as the
counterexample shows, even reassigned a different resolved value. -/
theorem claim2_once_resolved_stays_resolved (kmer_size : Nat) (seq : List DnaBase)
    (st : BuildState) (record : PlainBCalm2NodeData) (i : Nat)
    (h : getSlot st.node_map i ≠ .Unmapped) :
    getSlot (processParsedRecord kmer_size seq st record).node_map i ≠ .Unmapped := by
  unfold processParsedRecord
  rw [emitRecordEdges_node_map]
  set st1 : BuildState :=
    { st with node_map := ensureSize st.node_map (record.id * 2 + 1) } with hst1
  have hsz := ensureSize_lt st.node_map (record.id * 2 + 1)
  have hl1 : record.id * 2 < st1.node_map.length := by
    simp only [hst1]
    omega
  have hi1 : getSlot st1.node_map i ≠ .Unmapped := by
    simp only [hst1, getSlot_ensureSize]
    exact h
  have hmono := processHead_length record st1
  have hl2 : record.id * 2 + 1 < (processHead record st1).node_map.length := by
    have h2 : record.id * 2 + 1 < st1.node_map.length := by
      simp only [hst1]
      omega
    omega
  have hn1 : getSlot (processHead record st1).node_map (record.id * 2) ≠ .Unmapped :=
    processHead_resolves record st1 hl1
  have hi2 : getSlot (processHead record st1).node_map i ≠ .Unmapped :=
    processHead_preserve record st1 hl1 i hi1
  exact processTail_preserve _ record (processHead record st1) hl2 hn1 i hi2

/-- Witness for C2: slot 3 of the counterexample state is resolved, and after
processing the third record it is still resolved. -/
theorem claim2_once_resolved_stays_resolved_witness :
    getSlot c2state2.node_map 3 ≠ .Unmapped ∧
    getSlot (processParsedRecord 3 c2seq2 c2state2 c2r2).node_map 3 ≠ .Unmapped :=
  ⟨by decide, claim2_once_resolved_stays_resolved 3 c2seq2 c2state2 c2r2 3 (by decide)⟩

theorem revcomp_length (s : List DnaBase) : (revcomp s).length = s.length := by
  simp [revcomp]

theorem zip_take_all_beq :
    ∀ (a b : List DnaBase) (n : Nat), a.length = b.length →
      ((((a.zip b).take n).all (fun p => p.1 == p.2)) = true ↔ a.take n = b.take n) := by
  intro a
  induction a with
  | nil =>
    intro b n hb
    cases b
    · simp
    · simp at hb
  | cons x xs ih =>
    intro b n hb
    cases b with
    | nil => simp at hb
    | cons y ys =>
      cases n with
      | zero => simp
      | succ m =>
        simp only [List.zip_cons_cons, List.take_succ_cons, List.all_cons, Bool.and_eq_true,
          beq_iff_eq, List.cons.injEq]
        constructor
        · rintro ⟨h1, h2⟩
          exact ⟨h1, (ih ys m (by simpa using hb)).1 h2⟩
        · rintro ⟨h1, h2⟩
          exact ⟨h1, (ih ys m (by simpa using hb)).2 h2⟩

/-- The tail propagation leaves slot `n2` untouched when no outgoing edge
targets it. -/
theorem tailPropagate_not_target (n2 : Nat) (edges : List PlainBCalm2Edge) :
    ∀ nm : List MappedNode,
      (∀ e ∈ edges, e.from_side = true →
        e.to_node * 2 + (if e.to_side then 0 else 1) ≠ n2) →
      getSlot (tailPropagate n2 edges nm) n2 = getSlot nm n2 := by
  induction edges with
  | nil =>
    intro nm _
    rfl
  | cons e rest ih =>
    intro nm h
    simp only [tailPropagate]
    split
    · next hs =>
      rw [ih _ (fun e' he' hs' => h e' (List.mem_cons_of_mem _ he') hs'),
        getSlot_set_ne (h e (List.mem_cons_self _ _) hs)]
    · next hs =>
      exact ih nm fun e' he' hs' => h e' (List.mem_cons_of_mem _ he') hs'

/-- C3 (amended): the self-mirror-edge shortcut flag holds exactly when the
first `kmer_size - 1` characters of the sequence coincide with the first
`kmer_size - 1` characters of its reverse complement — a condition implied by
(but strictly weaker than) the full sequence equalling its reverse
complement — and whenever the flag holds and the tail slot is still unmapped,
the tail resolves to the mirror of the head's identity with no node
allocation. -/
theorem claim3_shortcut_condition (seq : List DnaBase) (kmer_size : Nat) :
    (edge_is_self_mirror seq kmer_size = true ↔
      seq.take (kmer_size - 1) = (revcomp seq).take (kmer_size - 1)) ∧
    (revcomp seq = seq → edge_is_self_mirror seq kmer_size = true) ∧
    (∀ (record : PlainBCalm2NodeData) (st : BuildState),
      edge_is_self_mirror seq kmer_size = true →
      record.id * 2 + 1 < st.node_map.length →
      getSlot st.node_map (record.id * 2 + 1) = .Unmapped →
      (⟨true, record.id, false⟩ : PlainBCalm2Edge) ∉ record.edges →
      (processTail (edge_is_self_mirror seq kmer_size) record st).graph = st.graph ∧
      getSlot (processTail (edge_is_self_mirror seq kmer_size) record st).node_map
          (record.id * 2 + 1) =
        (getSlot st.node_map (record.id * 2)).mirror) := by
  have hiff : edge_is_self_mirror seq kmer_size = true ↔
      seq.take (kmer_size - 1) = (revcomp seq).take (kmer_size - 1) :=
    zip_take_all_beq seq (revcomp seq) (kmer_size - 1) (revcomp_length seq).symm
  refine ⟨hiff, fun h => hiff.2 (by rw [h]), ?_⟩
  intro record st hflag hlen hun hnoself
  rw [hflag]
  simp only [processTail]
  have hcond : ¬(getSlot st.node_map (record.id * 2 + 1) ≠ MappedNode.Unmapped) := by
    rw [hun]
    exact fun hc => hc rfl
  rw [if_neg hcond]
  simp only [if_true]
  refine ⟨by trivial, ?_⟩
  have hnt : ∀ e ∈ record.edges, e.from_side = true →
      e.to_node * 2 + (if e.to_side then 0 else 1) ≠ record.id * 2 + 1 := by
    intro e he hfs heq
    by_cases ht : e.to_side = true
    · rw [if_pos ht] at heq
      omega
    · rw [if_neg ht] at heq
      have htn : e.to_node = record.id := by omega
      have hts : e.to_side = false := by
        cases hts2 : e.to_side
        · rfl
        · exact absurd hts2 ht
      have he2 : e = ⟨true, record.id, false⟩ := by
        cases e
        simp_all
      rw [he2] at he
      exact hnoself he
  rw [tailPropagate_not_target _ _ _ hnt, getSlot_set_self hlen]

/-- A concrete state for the C3 witness: head slot resolved to `Normal 0 1`,
tail slot still unmapped, both graph nodes mirror-registered. -/
def c3state0 : BuildState :=
  ⟨[MappedNode.Normal 0 1, MappedNode.Unmapped], ⟨[some 1, some 0], []⟩⟩

/-- C3 (witness): the amended theorem applied to the `ATTAT` record. -/
theorem claim3_shortcut_condition_witness :
    (edge_is_self_mirror c3seq 3 = true ∧
      c3record.id * 2 + 1 < c3state0.node_map.length ∧
      getSlot c3state0.node_map (c3record.id * 2 + 1) = .Unmapped ∧
      (⟨true, c3record.id, false⟩ : PlainBCalm2Edge) ∉ c3record.edges) ∧
    ((processTail (edge_is_self_mirror c3seq 3) c3record c3state0).graph = c3state0.graph ∧
      getSlot (processTail (edge_is_self_mirror c3seq 3) c3record c3state0).node_map
          (c3record.id * 2 + 1) =
        (getSlot c3state0.node_map (c3record.id * 2)).mirror) :=
  ⟨⟨by decide, by decide, by decide, by decide⟩,
    (claim3_shortcut_condition c3seq 3).2.2 c3record c3state0
      (by decide) (by decide) (by decide) (by decide)⟩

/-- A resolved slot value is well-formed with respect to the graph's mirror
registrations: the two handles of a `Normal` pair are registered as mutual
mirrors, and a `SelfMirror` handle is its own registered mirror. -/
def wfMapped (g : BiGraph) : MappedNode → Prop
  | .Unmapped => True
  | .Normal f b => g.mirror_node f = some b ∧ g.mirror_node b = some f
  | .SelfMirror n => g.mirror_node n = some n

/-- All registered mirror facts of `g` still hold in `g'`. -/
def MirrorPersists (g g' : BiGraph) : Prop :=
  ∀ i m, g.mirror_node i = some m → g'.mirror_node i = some m

theorem mirrorPersists_refl (g : BiGraph) : MirrorPersists g g := fun _ _ h => h

theorem mirrorPersists_trans {g1 g2 g3 : BiGraph} (h12 : MirrorPersists g1 g2)
    (h23 : MirrorPersists g2 g3) : MirrorPersists g1 g3 :=
  fun i m h => h23 i m (h12 i m h)

theorem getD_append_none (l : List (Option Nat)) (i : Nat) :
    (l ++ [none]).getD i none = l.getD i none := by
  rw [List.getD_eq_getElem?_getD, List.getD_eq_getElem?_getD, List.getElem?_append]
  by_cases h : i < l.length
  · simp [h]
  · simp only [h, if_false]
    rw [List.getElem?_eq_none (Nat.le_of_not_lt h)]
    cases hk : i - l.length with
    | zero => simp
    | succ k => simp

theorem getD_none_of_le (l : List (Option Nat)) {i : Nat} (h : l.length ≤ i) :
    l.getD i none = none := by
  rw [List.getD_eq_getElem?_getD, List.getElem?_eq_none h]
  rfl

theorem getD_set_ne_opt (l : List (Option Nat)) {t i : Nat} (h : t ≠ i) (v : Option Nat) :
    (l.set t v).getD i none = l.getD i none := by
  rw [List.getD_eq_getElem?_getD, List.getD_eq_getElem?_getD, List.getElem?_set_ne h]

theorem getD_set_self_opt (l : List (Option Nat)) {t : Nat} (h : t < l.length)
    (v : Option Nat) : (l.set t v).getD t none = v := by
  rw [List.getD_eq_getElem?_getD, List.getElem?_set_self h]
  rfl

theorem add_edge_mirror_node (g : BiGraph) (u v : Nat) (d : PlainBCalm2NodeData) (i : Nat) :
    (g.add_edge u v d).mirror_node i = g.mirror_node i := rfl

/-- Fresh binode allocation keeps all existing mirror registrations, registers the new
handle(s) as mirrors, and leaves the edge list unchanged. -/
theorem freshBinode_spec (g : BiGraph) (sm : Bool) :
    MirrorPersists g (freshBinode g sm).1 ∧
    wfMapped (freshBinode g sm).1 (freshBinode g sm).2 ∧
    (freshBinode g sm).1.edges = g.edges := by
  cases sm
  · have hlb : (g.node_mirrors ++ [none]).length = g.node_mirrors.length + 1 := by simp
    have hlb2 : ((g.node_mirrors ++ [none]) ++ [none]).length = g.node_mirrors.length + 2 := by
      simp
    refine ⟨?_, ?_, rfl⟩
    · intro i m h
      have hi : i < g.node_mirrors.length := by
        by_contra hc
        rw [show g.mirror_node i = g.node_mirrors.getD i none from rfl,
          getD_none_of_le _ (Nat.le_of_not_lt hc)] at h
        cases h
      show ((((g.node_mirrors ++ [none]) ++ [none]).set g.node_mirrors.length
          (some (g.node_mirrors ++ [none]).length)).set (g.node_mirrors ++ [none]).length
          (some g.node_mirrors.length)).getD i none = some m
      rw [getD_set_ne_opt _ (by rw [hlb]; omega), getD_set_ne_opt _ (by omega),
        getD_append_none, getD_append_none]
      exact h
    · constructor
      · show ((((g.node_mirrors ++ [none]) ++ [none]).set g.node_mirrors.length
            (some (g.node_mirrors ++ [none]).length)).set (g.node_mirrors ++ [none]).length
            (some g.node_mirrors.length)).getD g.node_mirrors.length none =
          some (g.node_mirrors ++ [none]).length
        rw [getD_set_ne_opt _ (by rw [hlb]; omega),
          getD_set_self_opt _ (by rw [hlb2]; omega)]
      · show ((((g.node_mirrors ++ [none]) ++ [none]).set g.node_mirrors.length
            (some (g.node_mirrors ++ [none]).length)).set (g.node_mirrors ++ [none]).length
            (some g.node_mirrors.length)).getD (g.node_mirrors ++ [none]).length none =
          some g.node_mirrors.length
        rw [getD_set_self_opt _ (by rw [List.length_set, hlb2, hlb]; omega)]
  · refine ⟨?_, ?_, rfl⟩
    · intro i m h
      have hi : i < g.node_mirrors.length := by
        by_contra hc
        rw [show g.mirror_node i = g.node_mirrors.getD i none from rfl,
          getD_none_of_le _ (Nat.le_of_not_lt hc)] at h
        cases h
      show (((g.node_mirrors ++ [none]).set g.node_mirrors.length
          (some g.node_mirrors.length)).set g.node_mirrors.length
          (some g.node_mirrors.length)).getD i none = some m
      rw [getD_set_ne_opt _ (by omega), getD_set_ne_opt _ (by omega), getD_append_none]
      exact h
    · have hlen : g.node_mirrors.length <
          ((g.node_mirrors ++ [none]).set g.node_mirrors.length
            (some g.node_mirrors.length)).length := by
        rw [List.length_set, List.length_append]
        simp
      exact getD_set_self_opt _ hlen _

theorem wfMapped_mono {g g' : BiGraph} (hp : MirrorPersists g g') {v : MappedNode}
    (hv : wfMapped g v) : wfMapped g' v := by
  cases v with
  | Unmapped => trivial
  | Normal f b => exact ⟨hp _ _ hv.1, hp _ _ hv.2⟩
  | SelfMirror n => exact hp _ _ hv

theorem wfMapped_mirror {g : BiGraph} {v : MappedNode} (hv : wfMapped g v) :
    wfMapped g v.mirror := by
  cases v with
  | Unmapped => trivial
  | Normal f b => exact ⟨hv.2, hv.1⟩
  | SelfMirror n => exact hv

theorem wfMapped_ite {g : BiGraph} {w : MappedNode} (hw : wfMapped g w) (c : Prop)
    [Decidable c] : wfMapped g (if c then w else w.mirror) := by
  by_cases h : c
  · rwa [if_pos h]
  · rw [if_neg h]
    exact wfMapped_mirror hw

/-- Every slot of the builder state is well-formed. -/
def StateWf (st : BuildState) : Prop :=
  ∀ i, wfMapped st.graph (getSlot st.node_map i)

theorem wf_slots_set {g : BiGraph} {nm : List MappedNode}
    (h : ∀ i, wfMapped g (getSlot nm i)) {t : Nat} {v : MappedNode} (hv : wfMapped g v) :
    ∀ i, wfMapped g (getSlot (nm.set t v) i) := by
  intro i
  rcases getSlot_set_cases nm t i v with hc | hc <;> rw [hc]
  · exact hv
  · exact h i

theorem headPropagate_wf {g : BiGraph} (n1 : Nat) (edges : List PlainBCalm2Edge) :
    ∀ nm : List MappedNode, (∀ i, wfMapped g (getSlot nm i)) →
      ∀ i, wfMapped g (getSlot (headPropagate n1 edges nm) i) := by
  induction edges with
  | nil =>
    intro nm h
    exact h
  | cons e rest ih =>
    intro nm h
    simp only [headPropagate]
    split
    · exact ih nm h
    · exact ih _ (wf_slots_set h (wfMapped_ite (h n1) _))

theorem tailPropagate_wf {g : BiGraph} (n2 : Nat) (edges : List PlainBCalm2Edge) :
    ∀ nm : List MappedNode, (∀ i, wfMapped g (getSlot nm i)) →
      ∀ i, wfMapped g (getSlot (tailPropagate n2 edges nm) i) := by
  induction edges with
  | nil =>
    intro nm h
    exact h
  | cons e rest ih =>
    intro nm h
    simp only [tailPropagate]
    split
    · exact ih _ (wf_slots_set h (wfMapped_ite (h n2) _))
    · exact ih nm h

/-- The adopted value of a neighbor search is one of the existing slot values
or the mirror of one. -/
theorem headSearch_adopt (edges : List PlainBCalm2Edge) :
    ∀ (nm nm' : List MappedNode) (v : MappedNode),
      headSearch edges nm = (nm', some v) →
      ∃ j, v = getSlot nm j ∨ v = (getSlot nm j).mirror := by
  induction edges with
  | nil =>
    intro nm nm' v h
    simp only [headSearch, Prod.mk.injEq] at h
    cases h.2
  | cons e rest ih =>
    intro nm nm' v h
    simp only [headSearch] at h
    split at h
    · exact ih nm nm' v h
    · set t := e.to_node * 2 + (if e.to_side then 0 else 1) with ht
      by_cases hm : getSlot (ensureSize nm t) t ≠ MappedNode.Unmapped
      · rw [if_pos hm, Prod.mk.injEq] at h
        obtain ⟨h1, h2⟩ := h
        injection h2 with h2
        refine ⟨t, ?_⟩
        rw [← h2, getSlot_ensureSize]
        by_cases hts : (!e.to_side) = true
        · rw [if_pos hts]
          exact Or.inl rfl
        · rw [if_neg hts]
          exact Or.inr rfl
      · rw [if_neg hm] at h
        obtain ⟨j, hj⟩ := ih _ nm' v h
        rw [getSlot_ensureSize] at hj
        exact ⟨j, hj⟩

theorem tailSearch_adopt (edges : List PlainBCalm2Edge) :
    ∀ (nm nm' : List MappedNode) (v : MappedNode),
      tailSearch edges nm = (nm', some v) →
      ∃ j, v = getSlot nm j ∨ v = (getSlot nm j).mirror := by
  induction edges with
  | nil =>
    intro nm nm' v h
    simp only [tailSearch, Prod.mk.injEq] at h
    cases h.2
  | cons e rest ih =>
    intro nm nm' v h
    simp only [tailSearch] at h
    split at h
    · set t := e.to_node * 2 + (if e.to_side then 0 else 1) with ht
      by_cases hm : getSlot (ensureSize nm t) t ≠ MappedNode.Unmapped
      · rw [if_pos hm, Prod.mk.injEq] at h
        obtain ⟨h1, h2⟩ := h
        injection h2 with h2
        refine ⟨t, ?_⟩
        rw [← h2, getSlot_ensureSize]
        by_cases hts : e.to_side = true
        · rw [if_pos hts]
          exact Or.inl rfl
        · rw [if_neg hts]
          exact Or.inr rfl
      · rw [if_neg hm] at h
        obtain ⟨j, hj⟩ := ih _ nm' v h
        rw [getSlot_ensureSize] at hj
        exact ⟨j, hj⟩
    · exact ih nm nm' v h

/-- The head block keeps all mirror registrations, adds no edges, and keeps
every slot well-formed. -/
theorem processHead_graph_spec (record : PlainBCalm2NodeData) (st : BuildState)
    (hwf : StateWf st) :
    MirrorPersists st.graph (processHead record st).graph ∧
    (processHead record st).graph.edges = st.graph.edges ∧
    StateWf (processHead record st) := by
  simp only [processHead]
  split
  · exact ⟨mirrorPersists_refl _, rfl, hwf⟩
  · split
    next nm v heq =>
      obtain ⟨hmap, hlen, _⟩ := headSearch_spec record.edges st.node_map nm (some v) heq
      refine ⟨mirrorPersists_refl _, rfl, ?_⟩
      intro i
      obtain ⟨j, hj⟩ := headSearch_adopt record.edges st.node_map nm v heq
      have hvwf : wfMapped st.graph v := by
        rcases hj with hj | hj <;> rw [hj]
        · exact hwf j
        · exact wfMapped_mirror (hwf j)
      refine headPropagate_wf _ _ _ (wf_slots_set (fun i2 => ?_) hvwf) i
      rw [hmap i2]
      exact hwf i2
    next nm heq =>
      obtain ⟨hmap, hlen, _⟩ := headSearch_spec record.edges st.node_map nm none heq
      obtain ⟨hp, hwfv, hedges⟩ :=
        freshBinode_spec st.graph (record.edges.contains ⟨false, record.id, true⟩)
      refine ⟨hp, hedges, ?_⟩
      intro i
      refine headPropagate_wf _ _ _ (wf_slots_set (fun i2 => ?_) hwfv) i
      rw [hmap i2]
      exact wfMapped_mono hp (hwf i2)

/-- The tail block keeps all mirror registrations, adds no edges, and keeps
every slot well-formed. -/
theorem processTail_graph_spec (smf : Bool) (record : PlainBCalm2NodeData) (st : BuildState)
    (hwf : StateWf st) :
    MirrorPersists st.graph (processTail smf record st).graph ∧
    (processTail smf record st).graph.edges = st.graph.edges ∧
    StateWf (processTail smf record st) := by
  simp only [processTail]
  split
  · exact ⟨mirrorPersists_refl _, rfl, hwf⟩
  · split
    · refine ⟨mirrorPersists_refl _, rfl, ?_⟩
      intro i
      exact tailPropagate_wf _ _ _
        (wf_slots_set hwf (wfMapped_mirror (hwf (record.id * 2)))) i
    · split
      next nm v heq =>
        obtain ⟨hmap, hlen, _⟩ := tailSearch_spec record.edges st.node_map nm (some v) heq
        refine ⟨mirrorPersists_refl _, rfl, ?_⟩
        intro i
        obtain ⟨j, hj⟩ := tailSearch_adopt record.edges st.node_map nm v heq
        have hvwf : wfMapped st.graph v := by
          rcases hj with hj | hj <;> rw [hj]
          · exact hwf j
          · exact wfMapped_mirror (hwf j)
        refine tailPropagate_wf _ _ _ (wf_slots_set (fun i2 => ?_) hvwf) i
        rw [hmap i2]
        exact hwf i2
      next nm heq =>
        obtain ⟨hmap, hlen, _⟩ := tailSearch_spec record.edges st.node_map nm none heq
        obtain ⟨hp, hwfv, hedges⟩ :=
          freshBinode_spec st.graph (record.edges.contains ⟨true, record.id, false⟩)
        refine ⟨hp, hedges, ?_⟩
        intro i
        refine tailPropagate_wf _ _ _ (wf_slots_set (fun i2 => ?_) hwfv) i
        rw [hmap i2]
        exact wfMapped_mono hp (hwf i2)

theorem processTail_resolves (smf : Bool) (record : PlainBCalm2NodeData) (st : BuildState)
    (hl : record.id * 2 + 1 < st.node_map.length)
    (hn1 : getSlot st.node_map (record.id * 2) ≠ .Unmapped) :
    getSlot (processTail smf record st).node_map (record.id * 2 + 1) ≠ .Unmapped := by
  simp only [processTail]
  split
  · next hm => exact hm
  · split
    · have hv : (getSlot st.node_map (record.id * 2)).mirror ≠ .Unmapped :=
        MappedNode.mirror_ne_unmapped hn1
      have h1 : getSlot (st.node_map.set (record.id * 2 + 1)
          (getSlot st.node_map (record.id * 2)).mirror) (record.id * 2 + 1) ≠ .Unmapped := by
        rw [getSlot_set_self hl]
        exact hv
      exact tailPropagate_preserve _ _ _ h1 _ h1
    · split
      next nm v heq =>
        obtain ⟨hmap, hlen, hv⟩ := tailSearch_spec record.edges st.node_map nm (some v) heq
        have hv' := hv v rfl
        have h1 : getSlot (nm.set (record.id * 2 + 1) v) (record.id * 2 + 1) ≠ .Unmapped := by
          rw [getSlot_set_self (by omega)]
          exact hv'
        exact tailPropagate_preserve _ _ _ h1 _ h1
      next nm heq =>
        obtain ⟨hmap, hlen, _⟩ := tailSearch_spec record.edges st.node_map nm none heq
        have hv' : (freshBinode st.graph
            (record.edges.contains ⟨true, record.id, false⟩)).2 ≠ .Unmapped :=
          freshBinode_ne _ _
        have h1 : getSlot (nm.set (record.id * 2 + 1)
            (freshBinode st.graph
              (record.edges.contains ⟨true, record.id, false⟩)).2) (record.id * 2 + 1) ≠
            .Unmapped := by
          rw [getSlot_set_self (by omega)]
          exact hv'
        exact tailPropagate_preserve _ _ _ h1 _ h1

/-- A resolved, well-formed slot materializes into a pair of mutually
mirror-registered handles. -/
theorem materialize_wf {g : BiGraph} {v : MappedNode} (hv : wfMapped g v)
    (hne : v ≠ .Unmapped) :
    g.mirror_node (materialize v).1 = some (materialize v).2 ∧
    g.mirror_node (materialize v).2 = some (materialize v).1 := by
  cases v with
  | Unmapped => exact absurd rfl hne
  | Normal f b => exact hv
  | SelfMirror n => exact ⟨hv, hv⟩

theorem emitRecordEdges_graph (record : PlainBCalm2NodeData) (st : BuildState) :
    (emitRecordEdges record st).graph.edges =
      st.graph.edges ++
        [⟨(materialize (getSlot st.node_map (record.id * 2))).1,
          (materialize (getSlot st.node_map (record.id * 2 + 1))).1, record⟩,
         ⟨(materialize (getSlot st.node_map (record.id * 2 + 1))).2,
          (materialize (getSlot st.node_map (record.id * 2))).2, record.mirror⟩] ∧
    ∀ i, (emitRecordEdges record st).graph.mirror_node i = st.graph.mirror_node i := by
  constructor
  · have h : (emitRecordEdges record st).graph.edges =
        (st.graph.edges ++
          [⟨(materialize (getSlot st.node_map (record.id * 2))).1,
            (materialize (getSlot st.node_map (record.id * 2 + 1))).1, record⟩]) ++
          [⟨(materialize (getSlot st.node_map (record.id * 2 + 1))).2,
            (materialize (getSlot st.node_map (record.id * 2))).2, record.mirror⟩] := rfl
    rw [h, List.append_assoc]
    rfl
  · intro i
    rfl

/-- One full record-processing step: all previous mirror registrations persist,
every slot stays well-formed, and exactly the two directed edges
`(headForward → tailForward, record)` and
`(tailBackward → headBackward, mirror record)` are appended, with
mirror-registered endpoint pairs. -/
theorem processParsedRecord_spec (k : Nat) (seq : List DnaBase) (st : BuildState)
    (record : PlainBCalm2NodeData) (hwf : StateWf st) :
    MirrorPersists st.graph (processParsedRecord k seq st record).graph ∧
    StateWf (processParsedRecord k seq st record) ∧
    ∃ e1 e2 : EdgeRecord,
      (processParsedRecord k seq st record).graph.edges = st.graph.edges ++ [e1, e2] ∧
      e1.data = record ∧ e2.data = record.mirror ∧
      (processParsedRecord k seq st record).graph.mirror_node e1.from_node =
        some e2.to_node ∧
      (processParsedRecord k seq st record).graph.mirror_node e2.to_node =
        some e1.from_node ∧
      (processParsedRecord k seq st record).graph.mirror_node e1.to_node =
        some e2.from_node ∧
      (processParsedRecord k seq st record).graph.mirror_node e2.from_node =
        some e1.to_node := by
  unfold processParsedRecord
  set st1 : BuildState :=
    { st with node_map := ensureSize st.node_map (record.id * 2 + 1) } with hst1
  have hwf1 : StateWf st1 := by
    intro i
    simp only [hst1, getSlot_ensureSize]
    exact hwf i
  obtain ⟨hp1, he1, hwf2⟩ := processHead_graph_spec record st1 hwf1
  set st2 : BuildState := processHead record st1 with hst2
  obtain ⟨hp2, he2, hwf3⟩ :=
    processTail_graph_spec (edge_is_self_mirror seq k) record st2 hwf2
  set st3 : BuildState := processTail (edge_is_self_mirror seq k) record st2 with hst3
  have hsz := ensureSize_lt st.node_map (record.id * 2 + 1)
  have hl1 : record.id * 2 < st1.node_map.length := by
    simp only [hst1]
    omega
  have hn1 : getSlot st2.node_map (record.id * 2) ≠ .Unmapped :=
    processHead_resolves record st1 hl1
  have hl2 : record.id * 2 + 1 < st2.node_map.length := by
    have hm := processHead_length record st1
    rw [← hst2] at hm
    have h2 : record.id * 2 + 1 < st1.node_map.length := by
      simp only [hst1]
      omega
    omega
  have hn2 : getSlot st3.node_map (record.id * 2 + 1) ≠ .Unmapped :=
    processTail_resolves (edge_is_self_mirror seq k) record st2 hl2 hn1
  have hn1' : getSlot st3.node_map (record.id * 2) ≠ .Unmapped :=
    processTail_preserve (edge_is_self_mirror seq k) record st2 hl2 hn1 _ hn1
  obtain ⟨hemit, hemirror⟩ := emitRecordEdges_graph record st3
  have hpe : MirrorPersists st3.graph (emitRecordEdges record st3).graph := by
    intro i m hm
    rw [hemirror i]
    exact hm
  have hm1 := materialize_wf (hwf3 (record.id * 2)) hn1'
  have hm2 := materialize_wf (hwf3 (record.id * 2 + 1)) hn2
  refine ⟨?_, ?_, ?_⟩
  · exact mirrorPersists_trans hp1 (mirrorPersists_trans hp2 hpe)
  · intro i
    rw [show (emitRecordEdges record st3).node_map = st3.node_map from rfl]
    exact wfMapped_mono hpe (hwf3 i)
  · refine ⟨⟨(materialize (getSlot st3.node_map (record.id * 2))).1,
      (materialize (getSlot st3.node_map (record.id * 2 + 1))).1, record⟩,
      ⟨(materialize (getSlot st3.node_map (record.id * 2 + 1))).2,
      (materialize (getSlot st3.node_map (record.id * 2))).2, record.mirror⟩,
      ?_, rfl, rfl, ?_, ?_, ?_, ?_⟩
    · rw [hemit, he2, he1]
    · rw [hemirror]
      exact hm1.1
    · rw [hemirror]
      exact hm1.2
    · rw [hemirror]
      exact hm2.1
    · rw [hemirror]
      exact hm2.2

/-- A successful parse appends exactly one stored sequence, hands out its
index as the handle, and marks the record forwards. -/
theorem parse_ok_shape (r : FastaRecord) (store store' : SequenceStore)
    (d : PlainBCalm2NodeData)
    (h : parse_bcalm2_fasta_record r store = .ok (store', d)) :
    store'.length = store.length + 1 ∧ d.sequence_handle = store.length ∧
      d.forwards = true := by
  unfold parse_bcalm2_fasta_record at h
  rcases h1 : parseNat r.id with _ | i <;> rw [h1] at h
  · simp only [bind, Except.bind] at h
    cases h
  · rcases h2 : add_from_slice_u8 r.seq.data with _ | seq <;> rw [h2] at h
    · simp only [bind, Except.bind] at h
      cases h
    · rcases h3 : (splitWhitespace r.desc).foldlM paramStep ⟨none, none, none, []⟩ with e | ps <;>
        rw [h3] at h
      · simp only [bind, Except.bind] at h
        cases h
      · simp only [bind, Except.bind] at h
        split at h
        · split at h
          · cases h
          · injection h with h
            rw [Prod.mk.injEq] at h
            obtain ⟨hs, hd⟩ := h
            subst hs
            subst hd
            exact ⟨by simp, rfl, rfl⟩
        · injection h with h
          rw [Prod.mk.injEq] at h
          obtain ⟨hs, hd⟩ := h
          subst hs
          subst hd
          exact ⟨by simp, rfl, rfl⟩

/-- The shape of the `i`-th emitted edge pair: the forward edge at position
`2i` carries the `i`-th record's payload (`forwards`, handle `base + i`), the
edge at `2i + 1` carries the mirrored payload, and the endpoints are pairwise
mirror-registered with swapped roles. -/
def edgePairSpec (base : Nat) (g : BiGraph) (i : Nat) : Prop :=
  ∃ e1 e2 : EdgeRecord,
    g.edges.get? (2 * i) = some e1 ∧
    g.edges.get? (2 * i + 1) = some e2 ∧
    e1.data.forwards = true ∧
    e1.data.sequence_handle = base + i ∧
    e2.data = e1.data.mirror ∧
    g.mirror_node e1.from_node = some e2.to_node ∧
    g.mirror_node e2.to_node = some e1.from_node ∧
    g.mirror_node e1.to_node = some e2.from_node ∧
    g.mirror_node e2.from_node = some e1.to_node

/-- The edge list consists of exactly one such pair per processed record. -/
def EdgesSpec (base : Nat) (g : BiGraph) (count : Nat) : Prop :=
  g.edges.length = 2 * count ∧ ∀ i, i < count → edgePairSpec base g i

theorem edgePairSpec_mono {base : Nat} {g g' : BiGraph} {i : Nat}
    (hp : MirrorPersists g g') (he : ∃ tail, g'.edges = g.edges ++ tail)
    (hip : edgePairSpec base g i) (hi : 2 * i + 1 < g.edges.length) :
    edgePairSpec base g' i := by
  obtain ⟨e1, e2, h1, h2, h3, h4, h5, h6, h7, h8, h9⟩ := hip
  obtain ⟨tail, ht⟩ := he
  refine ⟨e1, e2, ?_, ?_, h3, h4, h5, hp _ _ h6, hp _ _ h7, hp _ _ h8, hp _ _ h9⟩
  · rw [ht, List.get?_append (by omega)]
    exact h1
  · rw [ht, List.get?_append (by omega)]
    exact h2

/-- The invariant carried along the reader's fold: the store has grown by one
sequence per processed record, all slots are well-formed, and the edge list
consists of the emitted pairs. -/
def ReadInv (base n : Nat) (acc : SequenceStore × BuildState) : Prop :=
  acc.1.length = base + n ∧ StateWf acc.2 ∧ EdgesSpec base acc.2.graph n

theorem readStep_inv (kmer_size base n : Nat) (acc acc' : SequenceStore × BuildState)
    (r : FastaRecord) (h : readStep kmer_size acc r = .ok acc')
    (hinv : ReadInv base n acc) : ReadInv base (n + 1) acc' := by
  obtain ⟨hlen, hwf, hspec⟩ := hinv
  unfold readStep at h
  rcases hp : parse_bcalm2_fasta_record r acc.1 with e | sd <;> rw [hp] at h
  · simp only [bind, Except.bind] at h
    cases h
  · simp only [bind, Except.bind, pure, Except.pure] at h
    injection h with h
    obtain ⟨store', st'⟩ := acc'
    rw [Prod.mk.injEq] at h
    obtain ⟨hs1, hs2⟩ := h
    subst hs1
    subst hs2
    obtain ⟨hps, hph, hpf⟩ := parse_ok_shape r acc.1 sd.1 sd.2 hp
    obtain ⟨hpp, hwf', e1, e2, hedges, hd1, hd2, hm1, hm2, hm3, hm4⟩ :=
      processParsedRecord_spec kmer_size (sd.1.get sd.2.sequence_handle) acc.2 sd.2 hwf
    refine ⟨?_, hwf', ?_, ?_⟩
    · show sd.1.length = base + (n + 1)
      omega
    · show (processParsedRecord kmer_size (sd.1.get sd.2.sequence_handle)
          acc.2 sd.2).graph.edges.length = 2 * (n + 1)
      rw [hedges, List.length_append, hspec.1]
      simp only [List.length_cons, List.length_nil]
      omega
    · intro i hi
      show edgePairSpec base (processParsedRecord kmer_size
        (sd.1.get sd.2.sequence_handle) acc.2 sd.2).graph i
      by_cases hin : i < n
      · exact edgePairSpec_mono hpp ⟨[e1, e2], hedges⟩ (hspec.2 i hin)
          (by rw [hspec.1]; omega)
      · have hieq : i = n := by omega
        subst hieq
        have hge1 : acc.2.graph.edges.length ≤ 2 * i := le_of_eq hspec.1
        have hge2 : acc.2.graph.edges.length ≤ 2 * i + 1 := by
          rw [hspec.1]
          omega
        refine ⟨e1, e2, ?_, ?_, ?_, ?_, ?_, hm1, hm2, hm3, hm4⟩
        · rw [hedges, List.get?_append_right hge1]
          rw [hspec.1, show 2 * i - 2 * i = 0 from by omega]
          rfl
        · rw [hedges, List.get?_append_right hge2]
          rw [hspec.1, show 2 * i + 1 - 2 * i = 1 from by omega]
          rfl
        · rw [hd1, hpf]
        · rw [hd1, hph, hlen]
        · rw [hd2, hd1]

theorem foldlM_readStep_inv (kmer_size base : Nat) :
    ∀ (l : List FastaRecord) (n : Nat) (acc acc' : SequenceStore × BuildState),
      l.foldlM (readStep kmer_size) acc = .ok acc' → ReadInv base n acc →
      ReadInv base (n + l.length) acc' := by
  intro l
  induction l with
  | nil =>
    intro n acc acc' h hinv
    simp only [List.foldlM_nil, pure, Except.pure] at h
    injection h with h
    subst h
    simpa using hinv
  | cons a as ih =>
    intro n acc acc' h hinv
    rw [List.foldlM_cons] at h
    rcases hf : readStep kmer_size acc a with e | acc1 <;> rw [hf] at h
    · simp only [bind, Except.bind] at h
      cases h
    · simp only [bind, Except.bind] at h
      have hh := ih (n + 1) acc1 acc' h (readStep_inv kmer_size base n acc acc1 a hf hinv)
      rw [show n + (a :: as).length = n + 1 + as.length from by
        simp only [List.length_cons]
        omega]
      exact hh

theorem rustEq_iff (a b : PlainBCalm2NodeData) :
    a.rustEq b = true ↔ a.sequence_handle = b.sequence_handle ∧ a.forwards = b.forwards := by
  simp [PlainBCalm2NodeData.rustEq]

theorem mirror_sequence_handle (d : PlainBCalm2NodeData) :
    d.mirror.sequence_handle = d.sequence_handle := rfl

theorem mirror_forwards (d : PlainBCalm2NodeData) : d.mirror.forwards = !d.forwards := rfl

/-- The data of the edge at index `j2` is determined by `j2`: its handle names
the record (`j2 / 2`) and its orientation the parity. -/
theorem edges_spec_data (base : Nat) (g : BiGraph) (count : Nat)
    (hs : EdgesSpec base g count) :
    ∀ j2, j2 < 2 * count → ∃ m, g.edges.get? j2 = some m ∧
      m.data.sequence_handle = base + j2 / 2 ∧
      m.data.forwards = decide (j2 % 2 = 0) := by
  intro j2 hj2
  obtain ⟨hlen, hpairs⟩ := hs
  have hi2 : j2 / 2 < count := by omega
  obtain ⟨e1, e2, h1, h2, hf, hh, hm, _, _, _, _⟩ := hpairs (j2 / 2) hi2
  rcases Nat.mod_two_eq_zero_or_one j2 with hpar | hpar
  · have hj : j2 = 2 * (j2 / 2) := by omega
    refine ⟨e1, by rw [hj]; exact h1, hh, ?_⟩
    rw [hf, hpar]
    rfl
  · have hj : j2 = 2 * (j2 / 2) + 1 := by omega
    refine ⟨e2, by rw [hj]; exact h2, ?_, ?_⟩
    · rw [hm, mirror_sequence_handle, hh]
    · rw [hm, mirror_forwards, hf, hpar]
      rfl

/-- A boolean predicate on `Nat` that holds at exactly one index below `n`
selects exactly one element of `range n`. -/
theorem filter_range_unique (P : Nat → Bool) :
    ∀ (n a : Nat), a < n → (∀ j, j < n → (P j = true ↔ j = a)) →
      ((List.range n).filter P).length = 1 := by
  intro n
  induction n with
  | zero =>
    intro a ha _
    exact absurd ha (Nat.not_lt_zero a)
  | succ m ih =>
    intro a ha hc
    rw [List.range_succ, List.filter_append, List.length_append]
    by_cases ham : a = m
    · subst ham
      have h1 : List.filter P (List.range a) = [] := by
        rw [List.filter_eq_nil]
        intro x hx hP
        have hxa : x < a := List.mem_range.1 hx
        exact absurd ((hc x (by omega)).1 hP) (by omega)
      have hPa : P a = true := (hc a (Nat.lt_succ_self a)).2 rfl
      rw [h1]
      simp [hPa]
    · have ham2 : a < m := by omega
      have hPm : P m = false := by
        cases hP : P m
        · rfl
        · exact absurd ((hc m (Nat.lt_succ_self m)).1 hP) (by omega)
      have h2 : List.filter P [m] = [] := by
        simp [hPm]
      rw [h2]
      simp only [List.length_nil, Nat.add_zero]
      exact ih a ham2 fun j hj => hc j (by omega)

/-- A mirror candidate for `e` at edge index `j2`: mirrored-and-swapped
endpoints and mirrored payload (the source's `PartialEq`). -/
def isMirrorEdgeAt (g : BiGraph) (e : EdgeRecord) (j2 : Nat) : Bool :=
  match g.edges.get? j2 with
  | some m =>
    (g.mirror_node e.to_node == some m.from_node) &&
    (g.mirror_node e.from_node == some m.to_node) &&
    m.data.rustEq e.data.mirror
  | none => false

/-- Reflexivity and double-mirror invariance of the source's payload equality. -/
theorem rustEq_self (d : PlainBCalm2NodeData) : d.rustEq d = true := by
  simp [PlainBCalm2NodeData.rustEq]

theorem rustEq_mirror_mirror (d : PlainBCalm2NodeData) :
    d.rustEq d.mirror.mirror = true := by
  simp [PlainBCalm2NodeData.rustEq, PlainBCalm2NodeData.mirror]

/-- Under `EdgesSpec`, every edge has exactly one mirror candidate: the other
member of its emitted pair. -/
theorem edges_spec_mirror_count (base : Nat) (g : BiGraph) (count : Nat)
    (hs : EdgesSpec base g count) (j : Nat) (e : EdgeRecord)
    (hje : g.edges.get? j = some e) :
    ((List.range g.edges.length).filter (isMirrorEdgeAt g e)).length = 1 := by
  have hlen := hs.1
  have hj : j < 2 * count := by
    by_contra hc
    rw [List.get?_eq_none.2 (by omega)] at hje
    cases hje
  have hi : j / 2 < count := by omega
  obtain ⟨e1, e2, h1, h2, hf, hh, hm, hm1, hm2, hm3, hm4⟩ := hs.2 (j / 2) hi
  rcases Nat.mod_two_eq_zero_or_one j with hpar | hpar
  · -- `j` is even: `e` is the forward edge `e1`, its unique mirror sits at `j + 1`
    have hjeq : j = 2 * (j / 2) := by omega
    have hee : e = e1 := by
      rw [hjeq] at hje
      rw [h1] at hje
      exact (Option.some.inj hje).symm
    subst hee
    rw [hlen]
    refine filter_range_unique _ (2 * count) (2 * (j / 2) + 1) (by omega) ?_
    intro j2 hj2c
    unfold isMirrorEdgeAt
    obtain ⟨m, hmj2, hmh, hmf⟩ := edges_spec_data base g count hs j2 hj2c
    rw [hmj2]
    constructor
    · intro hP
      rw [Bool.and_eq_true, Bool.and_eq_true] at hP
      obtain ⟨⟨hb1, hb2⟩, hb3⟩ := hP
      obtain ⟨hr1, hr2⟩ := (rustEq_iff _ _).1 hb3
      rw [mirror_sequence_handle, hh, hmh] at hr1
      rw [mirror_forwards, hf, hmf] at hr2
      have hpareq : j2 % 2 = 1 := by
        rcases Nat.mod_two_eq_zero_or_one j2 with hp2 | hp2
        · rw [hp2] at hr2
          simp at hr2
        · exact hp2
      omega
    · intro hj2e
      subst hj2e
      rw [h2] at hmj2
      injection hmj2 with hmj2
      subst hmj2
      simp [hm3, hm1, hm, rustEq_self]
  · -- `j` is odd: `e` is the mirrored edge `e2`, its unique mirror sits at `j - 1`
    have hjeq : j = 2 * (j / 2) + 1 := by omega
    have hee : e = e2 := by
      rw [hjeq] at hje
      rw [h2] at hje
      exact (Option.some.inj hje).symm
    subst hee
    rw [hlen]
    refine filter_range_unique _ (2 * count) (2 * (j / 2)) (by omega) ?_
    intro j2 hj2c
    unfold isMirrorEdgeAt
    obtain ⟨m, hmj2, hmh, hmf⟩ := edges_spec_data base g count hs j2 hj2c
    rw [hmj2]
    constructor
    · intro hP
      rw [Bool.and_eq_true, Bool.and_eq_true] at hP
      obtain ⟨⟨hb1, hb2⟩, hb3⟩ := hP
      obtain ⟨hr1, hr2⟩ := (rustEq_iff _ _).1 hb3
      rw [hm, mirror_sequence_handle, mirror_sequence_handle, hh, hmh] at hr1
      rw [hm, mirror_forwards, mirror_forwards, hf, hmf] at hr2
      have hpareq : j2 % 2 = 0 := by
        rcases Nat.mod_two_eq_zero_or_one j2 with hp2 | hp2
        · exact hp2
        · rw [hp2] at hr2
          simp at hr2
      omega
    · intro hj2e
      subst hj2e
      rw [h1] at hmj2
      injection hmj2 with hmj2
      subst hmj2
      simp [hm2, hm4, hm, rustEq_mirror_mirror]

/-- C5: for every successful run of the edge-centric reader, each of the `n`
records contributes exactly two directed edges, appended in its own iteration:
the pair at positions `2i` and `2i + 1` carries the `i`-th record's payload and
the mirrored payload with mirror-swapped endpoints (`edgePairSpec`), and in the
final graph every edge has exactly one mirror edge — an edge with
mirror-swapped endpoints and mirrored payload under the source's payload
equality. -/
theorem claim5_two_mirrored_edges_per_record (records : List FastaRecord)
    (store0 : SequenceStore) (kmer_size : Nat) (store : SequenceStore) (g : BiGraph)
    (h : read_bigraph_from_bcalm2_as_edge_centric records store0 kmer_size =
      .ok (store, g)) :
    g.edges.length = 2 * records.length ∧
    (∀ i, i < records.length → edgePairSpec store0.length g i) ∧
    ∀ j e, g.edges.get? j = some e →
      ((List.range g.edges.length).filter (isMirrorEdgeAt g e)).length = 1 := by
  unfold read_bigraph_from_bcalm2_as_edge_centric at h
  rcases hf : records.foldlM (readStep kmer_size) (store0, BuildState.mk [] BiGraph.empty)
    with e | p <;> rw [hf] at h
  · simp only [bind, Except.bind] at h
    cases h
  · simp only [bind, Except.bind, pure, Except.pure] at h
    injection h with h
    rw [Prod.mk.injEq] at h
    obtain ⟨hs, hg⟩ := h
    subst hg
    have hinv0 : ReadInv store0.length 0 (store0, BuildState.mk [] BiGraph.empty) := by
      refine ⟨by simp, fun i => trivial, rfl, ?_⟩
      intro i hi
      exact absurd hi (Nat.not_lt_zero i)
    have hinvF := foldlM_readStep_inv kmer_size store0.length records 0 _ p hf hinv0
    rw [Nat.zero_add] at hinvF
    obtain ⟨hlenF, hwfF, hspecF⟩ := hinvF
    exact ⟨hspecF.1, hspecF.2, fun j e hje =>
      edges_spec_mirror_count store0.length p.2.graph records.length hspecF j e hje⟩

/-- The single-record input of the C5 witness and its resulting graph. -/
def c5recs : List FastaRecord := [⟨"0", "LN:i:3", "ACA"⟩]

def c5data : PlainBCalm2NodeData := ⟨0, 0, true, some 3, none, none, []⟩

def c5graph : BiGraph :=
  ⟨[some 1, some 0, some 3, some 2],
   [⟨0, 2, c5data⟩, ⟨3, 1, c5data.mirror⟩]⟩

/-- C5 (witness): the theorem applied to a concrete single-record input. -/
theorem claim5_two_mirrored_edges_per_record_witness :
    read_bigraph_from_bcalm2_as_edge_centric c5recs [] 3 =
      .ok ([[DnaBase.A, DnaBase.C, DnaBase.A]], c5graph) ∧
    (c5graph.edges.length = 2 * c5recs.length ∧
      (∀ i, i < c5recs.length → edgePairSpec 0 c5graph i) ∧
      ∀ j e, c5graph.edges.get? j = some e →
        ((List.range c5graph.edges.length).filter (isMirrorEdgeAt c5graph e)).length = 1) :=
  ⟨rfl, claim5_two_mirrored_edges_per_record c5recs [] 3
    [[DnaBase.A, DnaBase.C, DnaBase.A]] c5graph rfl⟩

end GenomeGraph
